import Mathlib

/-!
Shallow embedding of the reconciliation core of TerminalCommander (src/main.go):
the line-level diff/merge engine (`calculateDiff`, diff navigation, merge,
save/close lifecycle) and the directory comparison/synchronization engine
(`enterCompareMode`, `syncLeftToRight`, `syncRightToLeft`, `syncBothWays`).

Modelling conventions:
- Go byte strings (file contents) are `List Char`, one `Char` per byte.
- A text line is `Line := List Char`; a line buffer is `List Line`.
- Go `int` struct fields that can go negative (`DiffBlock` bounds, scroll
  position) are `Int`; loop indices that stay non-negative are `Nat`.
- File I/O is an explicit oracle: `fs : String → Option (List Char)` for
  reads (`none` = read error), and write/copy outcomes are oracle functions
  passed to the operations that perform them.
- `time.Time` modification times are `Int` instants; `Equal` is `=` and
  `After` is `>`.
- Go map iteration/lookup is modelled by association lists with
  insert-or-replace semantics (`mapInsert` / assoc lookup).
-/

namespace TC

/-- A text line: Go holds lines as `string`; we use the underlying character
list so that splitting/joining file content is structural. -/
abbrev Line := List Char

/-- `DiffBlock` from src/main.go. The Go field `Type` is renamed `typ`
because `Type` is a Lean keyword. Bounds are Go `int`s and can be `-1`
(degenerate ranges), hence `Int`. -/
structure DiffBlock where
  LeftStart  : Int
  LeftEnd    : Int
  RightStart : Int
  RightEnd   : Int
  typ        : String -- "add", "delete", "modify", "equal"
  deriving DecidableEq, Repr

instance : Inhabited DiffBlock := ⟨⟨0, 0, 0, 0, ""⟩⟩

/-- `FileItem` from src/main.go (fields the core uses; `Ext` and the
rendering fields are omitted). `ModTime` is an abstract instant. -/
structure FileItem where
  Name     : String
  IsDir    : Bool
  Size     : Int
  ModTime  : Int
  Path     : String
  Selected : Bool
  deriving DecidableEq, Repr

instance : Inhabited FileItem := ⟨⟨"", false, 0, 0, "", false⟩⟩

/-- `Pane` from src/main.go (listing-related fields only). -/
structure Pane where
  CurrentPath : String
  Files       : List FileItem
  SelectedIdx : Nat
  deriving DecidableEq, Repr

/-- `CompareStatus` from src/main.go. The Go `*FileItem` pointers (nil when
the entry is one-sided) become `Option FileItem`. -/
structure CompareStatus where
  Status    : String -- "left_only", "right_only", "different", "identical"
  LeftFile  : Option FileItem
  RightFile : Option FileItem
  deriving DecidableEq, Repr

/-- `PaneLeft` constant from src/main.go. -/
def PaneLeft : Nat := 0

/-- `PaneRight` constant from src/main.go. -/
def PaneRight : Nat := 1

/-- The fields of Go's `Commander` that the reconciliation core reads or
writes (diff-session state, compare state, panes, status sink). -/
structure Commander where
  leftPane          : Pane
  rightPane         : Pane
  activePane        : Nat
  statusMsg         : String
  diffMode          : Bool
  diffLeftLines     : List Line
  diffRightLines    : List Line
  diffLeftPath      : String
  diffRightPath     : String
  diffLeftModified  : Bool
  diffRightModified : Bool
  diffCurrentIdx    : Nat
  diffDifferences   : List DiffBlock
  diffScrollY       : Int
  diffActiveSide    : Nat
  diffEditMode      : Bool
  diffCursorX       : Int
  diffCursorY       : Int
  compareMode       : Bool
  compareResults    : List (String × CompareStatus)
  deriving DecidableEq

/-- `setStatus` from src/main.go (the timestamp field is not modelled). -/
def setStatus (c : Commander) (msg : String) : Commander :=
  { c with statusMsg := msg }

/-! ## File content ↔ line buffer (§ enterDiffMode lines 2826-2843, saveDiffFiles) -/

/-- Go `strings.Split(content, "\n")`: split a character list at every
newline; always returns at least one (possibly empty) segment. A leading
newline opens a new empty segment; any other character is prepended to the
first segment of the rest. -/
def splitNl : List Char → List Line
  | [] => [[]]
  | ch :: cs =>
    let r := splitNl cs
    if ch = '\n' then [] :: r else (ch :: r.headD []) :: r.tail

/-- Go `strings.Join(lines, "\n")` on character-list lines. -/
def joinNl : List Line → List Char
  | [] => []
  | [l] => l
  | l :: ls => l ++ '\n' :: joinNl ls

/-- The three inline normalization steps of `enterDiffMode` applied to raw
file content: split on newlines, drop a single trailing empty line, and
normalize an empty result to one empty line. -/
def linesOf (content : List Char) : List Line :=
  let lines := splitNl content
  let lines := if lines.getLast? = some ([] : Line) then lines.dropLast else lines
  if lines = [] then [[]] else lines

/-- The write serialization of `saveDiffFiles`: lines joined with `'\n'`
plus one trailing `'\n'`. -/
def serializeLines (lines : List Line) : List Char :=
  joinNl lines ++ ['\n']

/-- `isTextFile` from src/main.go: reject content with a NUL byte among the
first 8192 bytes. -/
def isTextFile (content : List Char) : Bool :=
  (content.take 8192).all (fun b => b ≠ Char.ofNat 0)

/-! ### Lemmas about the serialization convention -/

theorem splitNl_cons (ch : Char) (cs : List Char) :
    splitNl (ch :: cs) =
      if ch = '\n' then [] :: splitNl cs
      else (ch :: (splitNl cs).headD []) :: (splitNl cs).tail := rfl

theorem splitNl_ne_nil (cs : List Char) : splitNl cs ≠ [] := by
  cases cs with
  | nil => simp [splitNl]
  | cons ch cs => rw [splitNl_cons]; split <;> simp

theorem joinNl_splitNl (cs : List Char) : joinNl (splitNl cs) = cs := by
  induction cs with
  | nil => simp [splitNl, joinNl]
  | cons ch cs ih =>
    rcases h : splitNl cs with _ | ⟨l, ls⟩
    · exact absurd h (splitNl_ne_nil cs)
    · rw [h] at ih
      rw [splitNl_cons, h]
      by_cases hch : ch = '\n'
      · subst hch
        simp only [if_pos rfl, joinNl]
        cases ls <;> simpa [joinNl] using ih
      · simp only [if_neg hch, List.headD_cons, List.tail_cons]
        cases ls <;> simp_all [joinNl]

theorem splitNl_append_nl (cs : List Char) :
    splitNl (cs ++ ['\n']) = splitNl cs ++ [[]] := by
  induction cs with
  | nil => simp [splitNl]
  | cons ch cs ih =>
    rcases h : splitNl cs with _ | ⟨l, ls⟩
    · exact absurd h (splitNl_ne_nil cs)
    · rw [h] at ih
      rw [List.cons_append, splitNl_cons, ih, splitNl_cons, h]
      split <;> simp

theorem splitNl_getLast?_ne (cs : List Char) (hne : cs ≠ [])
    (hlast : cs.getLast? ≠ some '\n') :
    (splitNl cs).getLast? ≠ some ([] : Line) := by
  induction cs with
  | nil => exact absurd rfl hne
  | cons ch cs ih =>
    cases cs with
    | nil =>
      have hch : ¬ch = '\n' := by simpa using hlast
      simp [splitNl, if_neg hch]
    | cons ch' cs' =>
      have hlast' : (ch' :: cs').getLast? ≠ some '\n' := by
        simpa [List.getLast?_cons_cons] using hlast
      have ihl := ih (by simp) hlast'
      rcases h : splitNl (ch' :: cs') with _ | ⟨l, ls⟩
      · exact absurd h (splitNl_ne_nil _)
      · rw [h] at ihl
        rw [splitNl_cons, h]
        simp only [List.headD_cons, List.tail_cons]
        by_cases hch : ch = '\n'
        · simpa [if_pos hch, List.getLast?_cons_cons] using ihl
        · rw [if_neg hch]
          cases ls with
          | nil => simp
          | cons l' ls' => simpa [List.getLast?_cons_cons] using ihl

/-- Round trip of the serialization convention: re-serializing the freshly
read line buffer reproduces the content, appending a final newline exactly
when one was missing (it never collapses multiple trailing newlines). -/
theorem serializeLines_linesOf (cs : List Char) :
    serializeLines (linesOf cs) =
      if cs.getLast? = some '\n' then cs else cs ++ ['\n'] := by
  by_cases hlast : cs.getLast? = some '\n'
  · rw [if_pos hlast]
    obtain ⟨cs', rfl⟩ : ∃ cs', cs = cs' ++ ['\n'] := by
      rcases List.eq_nil_or_concat cs with rfl | ⟨cs', ch, h⟩
      · simp at hlast
      · rw [List.concat_eq_append] at h
        subst h
        rw [List.getLast?_concat] at hlast
        obtain rfl : ch = '\n' := by simpa using hlast
        exact ⟨cs', rfl⟩
    have hnorm : linesOf (cs' ++ ['\n']) = splitNl cs' := by
      simp [linesOf, splitNl_append_nl, List.getLast?_concat,
        List.dropLast_concat, splitNl_ne_nil cs']
    rw [hnorm]
    unfold serializeLines
    rw [joinNl_splitNl]
  · rw [if_neg hlast]
    rcases eq_or_ne cs [] with rfl | hne
    · simp [linesOf, splitNl, serializeLines, joinNl]
    · have hgl := splitNl_getLast?_ne cs hne hlast
      have hnorm : linesOf cs = splitNl cs := by
        simp [linesOf, hgl, splitNl_ne_nil cs]
      rw [hnorm]
      unfold serializeLines
      rw [joinNl_splitNl]

/-! ## Diff Calculator (`calculateDiff`, src/main.go lines 2875-2981) -/

/-- The inner `for` of the equal branch: advance both pointers while the
current lines match. Returns the final `(leftIdx, rightIdx)`. -/
def eqRun (L R : List Line) (i j : Nat) : Nat × Nat :=
  if i < L.length ∧ j < R.length ∧ L.getD i [] = R.getD j [] then
    eqRun L R (i + 1) (j + 1)
  else (i, j)
termination_by L.length - i
decreasing_by omega

theorem eqRun_le (L R : List Line) (i j : Nat) :
    i ≤ (eqRun L R i j).1 ∧ j ≤ (eqRun L R i j).2 := by
  induction i, j using eqRun.induct L R with
  | case1 i j h ih => rw [eqRun, if_pos h]; omega
  | case2 i j h => rw [eqRun, if_neg h]; exact ⟨le_rfl, le_rfl⟩

theorem eqRun_progress (L R : List Line) (i j : Nat)
    (h : i < L.length ∧ j < R.length ∧ L.getD i [] = R.getD j []) :
    i < (eqRun L R i j).1 ∧ j < (eqRun L R i j).2 := by
  rw [eqRun, if_pos h]
  have := eqRun_le L R (i + 1) (j + 1)
  omega

theorem eqRun_ub (L R : List Line) (i j : Nat)
    (hi : i ≤ L.length) (hj : j ≤ R.length) :
    (eqRun L R i j).1 ≤ L.length ∧ (eqRun L R i j).2 ≤ R.length := by
  induction i, j using eqRun.induct L R with
  | case1 i j h ih => rw [eqRun, if_pos h]; exact ih (by omega) (by omega)
  | case2 i j h => rw [eqRun, if_neg h]; exact ⟨hi, hj⟩

/-- The divergence loop of `calculateDiff` (lines 2907-2945): starting from
a mismatch, advance until resynchronization (bounded lookahead `K = 3`) or
until both pointers exhaust their buffers. One Go iteration advances the
left pointer, the right pointer, or both, by exactly one; the lookahead
checks are interleaved left/right for each distance 1, 2, 3. -/
def divLoop (L R : List Line) (i j : Nat) : Nat × Nat :=
  if i < L.length ∨ j < R.length then
    if hb : i < L.length ∧ j < R.length then
      if L.getD i [] = R.getD j [] then (i, j)
      else if i + 1 < L.length ∧ L.getD (i + 1) [] = R.getD j [] then
        divLoop L R (i + 1) j
      else if j + 1 < R.length ∧ L.getD i [] = R.getD (j + 1) [] then
        divLoop L R i (j + 1)
      else if i + 2 < L.length ∧ L.getD (i + 2) [] = R.getD j [] then
        divLoop L R (i + 1) j
      else if j + 2 < R.length ∧ L.getD i [] = R.getD (j + 2) [] then
        divLoop L R i (j + 1)
      else if i + 3 < L.length ∧ L.getD (i + 3) [] = R.getD j [] then
        divLoop L R (i + 1) j
      else if j + 3 < R.length ∧ L.getD i [] = R.getD (j + 3) [] then
        divLoop L R i (j + 1)
      else divLoop L R (i + 1) (j + 1)
    else if i < L.length then divLoop L R (i + 1) j
    else divLoop L R i (j + 1)
  else (i, j)
termination_by (L.length - i) + (R.length - j)
decreasing_by all_goals omega

theorem divLoop_le (L R : List Line) (i j : Nat) :
    i ≤ (divLoop L R i j).1 ∧ j ≤ (divLoop L R i j).2 := by
  induction i, j using divLoop.induct L R with
  | case1 i j h hb heq =>
    rw [divLoop, if_pos h, dif_pos hb, if_pos heq]
    exact ⟨le_rfl, le_rfl⟩
  | case2 i j h hb heq h1 ih =>
    rw [divLoop, if_pos h, dif_pos hb, if_neg heq, if_pos h1]; omega
  | case3 i j h hb heq h1 h2 ih =>
    rw [divLoop, if_pos h, dif_pos hb, if_neg heq, if_neg h1, if_pos h2]
    omega
  | case4 i j h hb heq h1 h2 h3 ih =>
    rw [divLoop, if_pos h, dif_pos hb, if_neg heq, if_neg h1, if_neg h2,
      if_pos h3]
    omega
  | case5 i j h hb heq h1 h2 h3 h4 ih =>
    rw [divLoop, if_pos h, dif_pos hb, if_neg heq, if_neg h1, if_neg h2,
      if_neg h3, if_pos h4]
    omega
  | case6 i j h hb heq h1 h2 h3 h4 h5 ih =>
    rw [divLoop, if_pos h, dif_pos hb, if_neg heq, if_neg h1, if_neg h2,
      if_neg h3, if_neg h4, if_pos h5]
    omega
  | case7 i j h hb heq h1 h2 h3 h4 h5 h6 ih =>
    rw [divLoop, if_pos h, dif_pos hb, if_neg heq, if_neg h1, if_neg h2,
      if_neg h3, if_neg h4, if_neg h5, if_pos h6]
    omega
  | case8 i j h hb heq h1 h2 h3 h4 h5 h6 ih =>
    rw [divLoop, if_pos h, dif_pos hb, if_neg heq, if_neg h1, if_neg h2,
      if_neg h3, if_neg h4, if_neg h5, if_neg h6]
    omega
  | case9 i j h hb hi ih =>
    rw [divLoop, if_pos h, dif_neg hb, if_pos hi]; omega
  | case10 i j h hb hi ih =>
    rw [divLoop, if_pos h, dif_neg hb, if_neg hi]; omega
  | case11 i j h =>
    rw [divLoop, if_neg h]; exact ⟨le_rfl, le_rfl⟩

theorem divLoop_ub (L R : List Line) (i j : Nat) (hi : i ≤ L.length)
    (hj : j ≤ R.length) :
    (divLoop L R i j).1 ≤ L.length ∧ (divLoop L R i j).2 ≤ R.length := by
  induction i, j using divLoop.induct L R with
  | case1 i j h hb heq =>
    rw [divLoop, if_pos h, dif_pos hb, if_pos heq]
    exact ⟨hi, hj⟩
  | case2 i j h hb heq h1 ih =>
    rw [divLoop, if_pos h, dif_pos hb, if_neg heq, if_pos h1]
    exact ih (by omega) hj
  | case3 i j h hb heq h1 h2 ih =>
    rw [divLoop, if_pos h, dif_pos hb, if_neg heq, if_neg h1, if_pos h2]
    exact ih hi (by omega)
  | case4 i j h hb heq h1 h2 h3 ih =>
    rw [divLoop, if_pos h, dif_pos hb, if_neg heq, if_neg h1, if_neg h2,
      if_pos h3]
    exact ih (by omega) hj
  | case5 i j h hb heq h1 h2 h3 h4 ih =>
    rw [divLoop, if_pos h, dif_pos hb, if_neg heq, if_neg h1, if_neg h2,
      if_neg h3, if_pos h4]
    exact ih hi (by omega)
  | case6 i j h hb heq h1 h2 h3 h4 h5 ih =>
    rw [divLoop, if_pos h, dif_pos hb, if_neg heq, if_neg h1, if_neg h2,
      if_neg h3, if_neg h4, if_pos h5]
    exact ih (by omega) hj
  | case7 i j h hb heq h1 h2 h3 h4 h5 h6 ih =>
    rw [divLoop, if_pos h, dif_pos hb, if_neg heq, if_neg h1, if_neg h2,
      if_neg h3, if_neg h4, if_neg h5, if_pos h6]
    exact ih hi (by omega)
  | case8 i j h hb heq h1 h2 h3 h4 h5 h6 ih =>
    rw [divLoop, if_pos h, dif_pos hb, if_neg heq, if_neg h1, if_neg h2,
      if_neg h3, if_neg h4, if_neg h5, if_neg h6]
    exact ih (by omega) (by omega)
  | case9 i j h hb hi' ih =>
    rw [divLoop, if_pos h, dif_neg hb, if_pos hi']
    exact ih (by omega) hj
  | case10 i j h hb hi' ih =>
    rw [divLoop, if_pos h, dif_neg hb, if_neg hi']
    exact ih hi (by omega)
  | case11 i j h =>
    rw [divLoop, if_neg h]; exact ⟨hi, hj⟩

theorem divLoop_progress (L R : List Line) (i j : Nat)
    (h : i < L.length ∨ j < R.length)
    (hne : ¬(i < L.length ∧ j < R.length ∧ L.getD i [] = R.getD j [])) :
    i + j < (divLoop L R i j).1 + (divLoop L R i j).2 := by
  rw [divLoop, if_pos h]
  by_cases hb : i < L.length ∧ j < R.length
  · rw [dif_pos hb]
    have heq : ¬(L.getD i [] = R.getD j []) := fun he => hne ⟨hb.1, hb.2, he⟩
    rw [if_neg heq]
    split
    · have := divLoop_le L R (i + 1) j; omega
    split
    · have := divLoop_le L R i (j + 1); omega
    split
    · have := divLoop_le L R (i + 1) j; omega
    split
    · have := divLoop_le L R i (j + 1); omega
    split
    · have := divLoop_le L R (i + 1) j; omega
    split
    · have := divLoop_le L R i (j + 1); omega
    · have := divLoop_le L R (i + 1) (j + 1); omega
  · rw [dif_neg hb]
    split
    · have := divLoop_le L R (i + 1) j; omega
    · have := divLoop_le L R i (j + 1); omega

/-- The outer `for` of `calculateDiff`: alternately emit an equal block
(note the Go slip: its `RightStart` is set to `equalStart`, the *left*
pointer at entry) and a divergence block classified by which pointers
advanced. The two bound conjuncts `i ≤ L.length ∧ j ≤ R.length` of the
guard are invariants of the Go loop, made explicit here for termination;
on every reachable `(i, j)` the guard coincides with Go's
`leftIdx < leftLen || rightIdx < rightLen`. -/
def calcLoop (L R : List Line) (i j : Nat) : List DiffBlock :=
  if h : (i < L.length ∨ j < R.length) ∧ i ≤ L.length ∧ j ≤ R.length then
    if heq : i < L.length ∧ j < R.length ∧ L.getD i [] = R.getD j [] then
      let p := eqRun L R i j
      { LeftStart := (i : Int), LeftEnd := (p.1 : Int) - 1,
        RightStart := (i : Int), RightEnd := (p.2 : Int) - 1,
        typ := "equal" } :: calcLoop L R p.1 p.2
    else
      let p := divLoop L R i j
      let ty : String :=
        if i ≥ L.length then "add"
        else if j ≥ R.length then "delete"
        else if p.1 - i = 0 then "add"
        else if p.2 - j = 0 then "delete"
        else "modify"
      (if i < p.1 ∨ j < p.2 then
        [{ LeftStart := (i : Int), LeftEnd := (p.1 : Int) - 1,
           RightStart := (j : Int), RightEnd := (p.2 : Int) - 1,
           typ := ty }]
       else []) ++ calcLoop L R p.1 p.2
  else []
termination_by (L.length + R.length) - (i + j)
decreasing_by
  · have h1 := eqRun_progress L R i j heq
    omega
  · have h1 := divLoop_progress L R i j h.1 heq
    omega

/-- `calculateDiff` from src/main.go: run the two-pointer scan from
`(0, 0)`; if it produced no blocks (both buffers empty) emit one
degenerate whole-file equal block. -/
def calculateDiff (L R : List Line) : List DiffBlock :=
  let blocks := calcLoop L R 0 0
  if blocks = [] then
    [{ LeftStart := 0, LeftEnd := (L.length : Int) - 1,
       RightStart := 0, RightEnd := (R.length : Int) - 1, typ := "equal" }]
  else blocks

/-! ### Fuel-indexed twins of the three loops. The well-founded versions
above mirror the Go control flow but do not reduce inside the kernel; these
structurally recursive twins evaluate by `decide` on concrete inputs and
are proved equal to them whenever the fuel covers the remaining work. -/

/-- Fuel-indexed twin of `eqRun`. -/
def eqRunExec (L R : List Line) : Nat → Nat → Nat → Nat × Nat
  | 0, i, j => (i, j)
  | f + 1, i, j =>
    if i < L.length ∧ j < R.length ∧ L.getD i [] = R.getD j [] then
      eqRunExec L R f (i + 1) (j + 1)
    else (i, j)

theorem eqRunExec_eq (L R : List Line) (f i j : Nat)
    (hf : L.length - i < f) : eqRunExec L R f i j = eqRun L R i j := by
  induction f generalizing i j with
  | zero => omega
  | succ f ih =>
    rw [eqRunExec, eqRun]
    split
    · next h => exact ih (i + 1) (j + 1) (by omega)
    · rfl

/-- Fuel-indexed twin of `divLoop`. -/
def divLoopExec (L R : List Line) : Nat → Nat → Nat → Nat × Nat
  | 0, i, j => (i, j)
  | f + 1, i, j =>
    if i < L.length ∨ j < R.length then
      if i < L.length ∧ j < R.length then
        if L.getD i [] = R.getD j [] then (i, j)
        else if i + 1 < L.length ∧ L.getD (i + 1) [] = R.getD j [] then
          divLoopExec L R f (i + 1) j
        else if j + 1 < R.length ∧ L.getD i [] = R.getD (j + 1) [] then
          divLoopExec L R f i (j + 1)
        else if i + 2 < L.length ∧ L.getD (i + 2) [] = R.getD j [] then
          divLoopExec L R f (i + 1) j
        else if j + 2 < R.length ∧ L.getD i [] = R.getD (j + 2) [] then
          divLoopExec L R f i (j + 1)
        else if i + 3 < L.length ∧ L.getD (i + 3) [] = R.getD j [] then
          divLoopExec L R f (i + 1) j
        else if j + 3 < R.length ∧ L.getD i [] = R.getD (j + 3) [] then
          divLoopExec L R f i (j + 1)
        else divLoopExec L R f (i + 1) (j + 1)
      else if i < L.length then divLoopExec L R f (i + 1) j
      else divLoopExec L R f i (j + 1)
    else (i, j)

theorem divLoopExec_eq (L R : List Line) (f i j : Nat)
    (hf : (L.length - i) + (R.length - j) < f) :
    divLoopExec L R f i j = divLoop L R i j := by
  induction f generalizing i j with
  | zero => omega
  | succ f ih =>
    rw [divLoopExec, divLoop]
    by_cases h : i < L.length ∨ j < R.length
    · rw [if_pos h]
      by_cases hb : i < L.length ∧ j < R.length
      · rw [if_pos hb, dif_pos hb]
        split_ifs <;> first
          | rfl
          | exact ih (i + 1) j (by omega)
          | exact ih i (j + 1) (by omega)
          | exact ih (i + 1) (j + 1) (by omega)
      · rw [if_neg hb, dif_neg hb]
        split_ifs
        · exact ih (i + 1) j (by omega)
        · exact ih i (j + 1) (by omega)
    · rw [if_neg h, if_neg h]

/-- Fuel-indexed twin of `calcLoop`. -/
def calcLoopExec (L R : List Line) : Nat → Nat → Nat → List DiffBlock
  | 0, _, _ => []
  | f + 1, i, j =>
    if (i < L.length ∨ j < R.length) ∧ i ≤ L.length ∧ j ≤ R.length then
      if i < L.length ∧ j < R.length ∧ L.getD i [] = R.getD j [] then
        let p := eqRunExec L R (f + 1) i j
        { LeftStart := (i : Int), LeftEnd := (p.1 : Int) - 1,
          RightStart := (i : Int), RightEnd := (p.2 : Int) - 1,
          typ := "equal" } :: calcLoopExec L R f p.1 p.2
      else
        let p := divLoopExec L R (f + 1) i j
        let ty : String :=
          if i ≥ L.length then "add"
          else if j ≥ R.length then "delete"
          else if p.1 - i = 0 then "add"
          else if p.2 - j = 0 then "delete"
          else "modify"
        (if i < p.1 ∨ j < p.2 then
          [{ LeftStart := (i : Int), LeftEnd := (p.1 : Int) - 1,
             RightStart := (j : Int), RightEnd := (p.2 : Int) - 1,
             typ := ty }]
         else []) ++ calcLoopExec L R f p.1 p.2
    else []

theorem calcLoopExec_eq (L R : List Line) (f i j : Nat)
    (hf : (L.length + R.length) - (i + j) < f) :
    calcLoopExec L R f i j = calcLoop L R i j := by
  induction f generalizing i j with
  | zero => omega
  | succ f ih =>
    rw [calcLoopExec, calcLoop]
    by_cases hg : (i < L.length ∨ j < R.length) ∧ i ≤ L.length ∧ j ≤ R.length
    · rw [if_pos hg, dif_pos hg]
      by_cases heq : i < L.length ∧ j < R.length ∧ L.getD i [] = R.getD j []
      · rw [if_pos heq, dif_pos heq]
        have he : eqRunExec L R (f + 1) i j = eqRun L R i j :=
          eqRunExec_eq L R (f + 1) i j (by omega)
        have hp := eqRun_progress L R i j heq
        have hub := eqRun_ub L R i j (by omega) (by omega)
        simp only [he]
        rw [ih (eqRun L R i j).1 (eqRun L R i j).2 (by omega)]
      · rw [if_neg heq, dif_neg heq]
        have hd : divLoopExec L R (f + 1) i j = divLoop L R i j :=
          divLoopExec_eq L R (f + 1) i j (by omega)
        have hp := divLoop_progress L R i j hg.1 heq
        have hub := divLoop_ub L R i j hg.2.1 hg.2.2
        simp only [hd]
        rw [ih (divLoop L R i j).1 (divLoop L R i j).2 (by omega)]
    · rw [if_neg hg, dif_neg hg]

/-- `calculateDiff` evaluates through its fuel-indexed twin: the canonical
route for computing concrete diffs. -/
theorem calculateDiff_eq_exec (L R : List Line) :
    calculateDiff L R =
      (let blocks := calcLoopExec L R (L.length + R.length + 1) 0 0
       if blocks = [] then
         [{ LeftStart := 0, LeftEnd := (L.length : Int) - 1,
            RightStart := 0, RightEnd := (R.length : Int) - 1,
            typ := "equal" }]
       else blocks) := by
  rw [calculateDiff]
  rw [calcLoopExec_eq L R (L.length + R.length + 1) 0 0 (by omega)]

/-- Every non-equal block emitted by the scan has its left range inside
`[0, L.length)` and its right range inside `[0, R.length)`, each range
degenerate (`Start = End + 1`) or well-formed. (The buggy `RightStart` of
*equal* blocks is exactly why the lemma excludes them.) -/
theorem calcLoop_nonequal_bounds (L R : List Line) (i j : Nat) :
    ∀ b ∈ calcLoop L R i j, b.typ ≠ "equal" →
      0 ≤ b.LeftStart ∧ b.LeftStart ≤ b.LeftEnd + 1 ∧
      b.LeftEnd < (L.length : Int) ∧
      0 ≤ b.RightStart ∧ b.RightStart ≤ b.RightEnd + 1 ∧
      b.RightEnd < (R.length : Int) := by
  induction i, j using calcLoop.induct L R with
  | case1 i j hg heq p ih =>
    rw [calcLoop, dif_pos hg, dif_pos heq]
    simp only []
    intro b hb hne
    rcases List.mem_cons.mp hb with rfl | hb
    · exact absurd rfl hne
    · exact ih b hb hne
  | case2 i j hg heq p ih =>
    rw [calcLoop, dif_pos hg, dif_neg heq]
    simp only []
    intro b hb hne
    rcases List.mem_append.mp hb with hb | hb
    · have hle := divLoop_le L R i j
      have hub := divLoop_ub L R i j hg.2.1 hg.2.2
      rcases Decidable.em (i < (divLoop L R i j).1 ∨ j < (divLoop L R i j).2)
        with hlt | hlt
      · rw [if_pos hlt] at hb
        rcases List.mem_singleton.mp hb with rfl
        refine ⟨by positivity, ?_, ?_, by positivity, ?_, ?_⟩ <;>
          simp only [] <;> omega
      · rw [if_neg hlt] at hb
        simp at hb
    · exact ih b hb hne
  | case3 i j hg =>
    rw [calcLoop, dif_neg hg]
    intro b hb
    simp at hb

theorem calculateDiff_nonequal_bounds (L R : List Line) :
    ∀ b ∈ calculateDiff L R, b.typ ≠ "equal" →
      0 ≤ b.LeftStart ∧ b.LeftStart ≤ b.LeftEnd + 1 ∧
      b.LeftEnd < (L.length : Int) ∧
      0 ≤ b.RightStart ∧ b.RightStart ≤ b.RightEnd + 1 ∧
      b.RightEnd < (R.length : Int) := by
  intro b hb hne
  rw [calculateDiff] at hb
  split at hb
  · rcases List.mem_singleton.mp hb with rfl
    exact absurd rfl hne
  · exact calcLoop_nonequal_bounds L R 0 0 b hb hne

/-! ## Diff session operations (src/main.go) -/

/-- `enterDiffMode` (lines 2783-2861). File reads go through the oracle
`fs : path → Option content` (`none` models a read error; the Go error
text is summarized by a fixed status string). -/
def enterDiffMode (fs : String → Option (List Char)) (c : Commander) :
    Commander :=
  if c.leftPane.Files.length = 0 ∨ c.rightPane.Files.length = 0 then
    setStatus c "Both panes must have a file selected"
  else
    let leftFile := c.leftPane.Files.getD c.leftPane.SelectedIdx default
    let rightFile := c.rightPane.Files.getD c.rightPane.SelectedIdx default
    if leftFile.IsDir ∨ rightFile.IsDir then
      setStatus c "Both selections must be files, not directories"
    else if leftFile.Name = ".." ∨ rightFile.Name = ".." then
      setStatus c "Cannot diff parent directory link"
    else
      match fs leftFile.Path with
      | none => setStatus c "Error reading left file"
      | some leftContent =>
        match fs rightFile.Path with
        | none => setStatus c "Error reading right file"
        | some rightContent =>
          if ¬isTextFile leftContent ∨ ¬isTextFile rightContent then
            setStatus c "Both files must be readable text files"
          else
            let dl := linesOf leftContent
            let dr := linesOf rightContent
            { c with
              diffLeftLines := dl
              diffRightLines := dr
              diffLeftPath := leftFile.Path
              diffRightPath := rightFile.Path
              diffLeftModified := false
              diffRightModified := false
              diffCurrentIdx := 0
              diffScrollY := 0
              diffActiveSide := 0
              diffEditMode := false
              diffCursorX := 0
              diffCursorY := 0
              diffDifferences := calculateDiff dl dr
              diffMode := true
              statusMsg :=
                "Diff mode: f/F/ESC:Exit n:Next p:Prev >:Copy→ <:Copy← e:Edit Ctrl+S:Save" }

/-- First index `k ∈ [a, b)` whose block is not "equal": one forward scan
loop of `jumpToNextDiff` (lines 3337-3344 and 3347-3354) restricted to the
in-range index window it actually dereferences; the out-of-range access
the Go wrap loop can make (and the panic it causes) is modelled explicitly
in `jumpToNextDiff` itself. -/
def scanIdx (blocks : List DiffBlock) (a b : Nat) : Option Nat :=
  if a < b then
    if (blocks.getD a default).typ ≠ "equal" then some a
    else scanIdx blocks (a + 1) b
  else none
termination_by b - a
decreasing_by omega

/-- Greatest index scanning downward from `i` to `lo` (inclusive) whose
block is not "equal": one backward scan loop of `jumpToPrevDiff`
(lines 3366-3373 and 3376-3383; the scan variable is a Go `int` that may
start at `-1`), again only for the in-range windows; the possible
out-of-range first access of the Go loop is modelled in `jumpToPrevDiff`. -/
def scanIdxDown (blocks : List DiffBlock) (i lo : Int) : Option Nat :=
  if lo ≤ i then
    if (blocks.getD i.toNat default).typ ≠ "equal" then some i.toNat
    else scanIdxDown blocks (i - 1) lo
  else none
termination_by (i + 1 - lo).toNat
decreasing_by omega

/-- `jumpToNextDiff` (lines 3331-3357): scan forward from the current
block, wrap to the start, else report "No differences found". `none`
models a Go panic: the wrap loop `for i := 0; i <= c.diffCurrentIdx`
checks `i <= c.diffCurrentIdx` before indexing, so when it exhausts
indices `[0, len)` without a match and `diffCurrentIdx ≥ len` it next
evaluates `c.diffDifferences[len]` — index out of range. Such a stale
index is reachable because no operation resets `diffCurrentIdx` when a
merge or edit recompute shrinks the block list. If a non-equal block is
found at an index `< len`, the loop returns before reaching the bad
access, stale index or not — hence the scan window `min (idx+1) len`. -/
def jumpToNextDiff (c : Commander) : Option Commander :=
  if c.diffDifferences.length = 0 then some c
  else
    match scanIdx c.diffDifferences (c.diffCurrentIdx + 1)
        c.diffDifferences.length with
    | some i =>
      some { c with
          diffCurrentIdx := i
          diffScrollY := (c.diffDifferences.getD i default).LeftStart
          statusMsg := s!"Difference {i + 1}/{c.diffDifferences.length}" }
    | none =>
      match scanIdx c.diffDifferences 0
          (min (c.diffCurrentIdx + 1) c.diffDifferences.length) with
      | some i =>
        some { c with
            diffCurrentIdx := i
            diffScrollY := (c.diffDifferences.getD i default).LeftStart
            statusMsg :=
              s!"Difference {i + 1}/{c.diffDifferences.length} (wrapped)" }
      | none =>
        if c.diffCurrentIdx < c.diffDifferences.length then
          some (setStatus c "No differences found")
        else none

/-- `jumpToPrevDiff` (lines 3360-3386): scan backward from the current
block, wrap to the end, else report "No differences found". `none`
models a Go panic: the first loop `for i := c.diffCurrentIdx - 1; i >= 0`
starts at its largest index, so its very first access
`c.diffDifferences[diffCurrentIdx-1]` is out of range exactly when
`diffCurrentIdx ≥ len + 1` (with `len ≥ 1` past the early return). The
wrap loop runs from `len-1` downward and never leaves the list. -/
def jumpToPrevDiff (c : Commander) : Option Commander :=
  if c.diffDifferences.length = 0 then some c
  else if c.diffDifferences.length < c.diffCurrentIdx then none
  else
    match scanIdxDown c.diffDifferences ((c.diffCurrentIdx : Int) - 1) 0 with
    | some i =>
      some { c with
          diffCurrentIdx := i
          diffScrollY := (c.diffDifferences.getD i default).LeftStart
          statusMsg := s!"Difference {i + 1}/{c.diffDifferences.length}" }
    | none =>
      match scanIdxDown c.diffDifferences ((c.diffDifferences.length : Int) - 1)
          (c.diffCurrentIdx : Int) with
      | some i =>
        some { c with
            diffCurrentIdx := i
            diffScrollY := (c.diffDifferences.getD i default).LeftStart
            statusMsg :=
              s!"Difference {i + 1}/{c.diffDifferences.length} (wrapped)" }
      | none => some (setStatus c "No differences found")

/-- `copyDiffLeftToRight` (lines 3389-3420). The Go guard
`diffCurrentIdx < 0` is vacuous here because the index field is a `Nat`
(the source only ever assigns it non-negative values). Go's slice
expressions panic when out of range; `take`/`drop` clamp instead, and the
session invariant (blocks produced by `calculateDiff`) keeps all indices
in range, where both semantics agree. -/
def copyDiffLeftToRight (c : Commander) : Commander :=
  if c.diffCurrentIdx ≥ c.diffDifferences.length then
    setStatus c "No difference selected"
  else
    let diff := c.diffDifferences.getD c.diffCurrentIdx default
    if diff.typ = "equal" then
      setStatus c "No difference at current position"
    else
      let leftLines : List Line :=
        if diff.LeftStart ≤ diff.LeftEnd ∧
            diff.LeftEnd < (c.diffLeftLines.length : Int) then
          (c.diffLeftLines.drop diff.LeftStart.toNat).take
            (diff.LeftEnd - diff.LeftStart + 1).toNat
        else []
      let newRight :=
        c.diffRightLines.take diff.RightStart.toNat ++ leftLines ++
          (if diff.RightEnd + 1 < (c.diffRightLines.length : Int) then
            c.diffRightLines.drop (diff.RightEnd + 1).toNat
          else [])
      { c with
        diffRightLines := newRight
        diffRightModified := true
        diffDifferences := calculateDiff c.diffLeftLines newRight
        statusMsg := "Copied left → right" }

/-- `copyDiffRightToLeft` (lines 3423-3454), the mirror operation. -/
def copyDiffRightToLeft (c : Commander) : Commander :=
  if c.diffCurrentIdx ≥ c.diffDifferences.length then
    setStatus c "No difference selected"
  else
    let diff := c.diffDifferences.getD c.diffCurrentIdx default
    if diff.typ = "equal" then
      setStatus c "No difference at current position"
    else
      let rightLines : List Line :=
        if diff.RightStart ≤ diff.RightEnd ∧
            diff.RightEnd < (c.diffRightLines.length : Int) then
          (c.diffRightLines.drop diff.RightStart.toNat).take
            (diff.RightEnd - diff.RightStart + 1).toNat
        else []
      let newLeft :=
        c.diffLeftLines.take diff.LeftStart.toNat ++ rightLines ++
          (if diff.LeftEnd + 1 < (c.diffLeftLines.length : Int) then
            c.diffLeftLines.drop (diff.LeftEnd + 1).toNat
          else [])
      { c with
        diffLeftLines := newLeft
        diffLeftModified := true
        diffDifferences := calculateDiff newLeft c.diffRightLines
        statusMsg := "Copied right → left" }

/-- `saveDiffFiles` (lines 3475-3507). Writes go through the oracle
`wOk : path → content → Bool` (`false` models a failed `os.WriteFile`);
the returned list records the successful writes in order. -/
def saveDiffFiles (wOk : String → List Char → Bool) (c : Commander) :
    Commander × List (String × List Char) :=
  if c.diffLeftModified then
    let contentL := serializeLines c.diffLeftLines
    if wOk c.diffLeftPath contentL = false then
      (setStatus c "Error saving left file", [])
    else
      let c := { c with diffLeftModified := false }
      if c.diffRightModified then
        let contentR := serializeLines c.diffRightLines
        if wOk c.diffRightPath contentR = false then
          (setStatus c "Error saving right file",
           [(c.diffLeftPath, contentL)])
        else
          ({ c with diffRightModified := false,
                    statusMsg := "Saved both files" },
           [(c.diffLeftPath, contentL), (c.diffRightPath, contentR)])
      else
        (setStatus c "Saved 1 file", [(c.diffLeftPath, contentL)])
  else if c.diffRightModified then
    let contentR := serializeLines c.diffRightLines
    if wOk c.diffRightPath contentR = false then
      (setStatus c "Error saving right file", [])
    else
      ({ c with diffRightModified := false, statusMsg := "Saved 1 file" },
       [(c.diffRightPath, contentR)])
  else
    (setStatus c "No changes to save", [])

/-- `exitDiffMode` (lines 3510-3540). `refresh` abstracts the external
`refreshPane` collaborator (it re-reads a directory listing); the Go
function always returns `false`. The dead inner branch of the source
(`!leftModified && !rightModified` inside the opposite guard) is kept
verbatim. -/
def exitDiffMode (refresh : Pane → Pane) (c : Commander) :
    Commander × Bool :=
  if c.diffLeftModified ∨ c.diffRightModified then
    let c := setStatus c
      "Unsaved changes! Press Ctrl+S to save, ESC again to discard"
    if ¬c.diffLeftModified ∧ ¬c.diffRightModified then
      ({ c with diffMode := false, diffLeftLines := [],
                diffRightLines := [], diffDifferences := [],
                statusMsg := "Diff mode exited",
                leftPane := refresh c.leftPane,
                rightPane := refresh c.rightPane }, false)
    else
      ({ c with diffLeftModified := false, diffRightModified := false },
       false)
  else
    ({ c with diffMode := false, diffLeftLines := [],
              diffRightLines := [], diffDifferences := [],
              statusMsg := "Diff mode exited",
              leftPane := refresh c.leftPane,
              rightPane := refresh c.rightPane }, false)

/-! ## Directory comparison and synchronization (src/main.go 3543-3859)

Go maps keyed by file name are modelled as association lists with
insert-or-replace; iterating the association list models iterating the map
(every key is inserted at most once per loop, so the resulting map — and
every quantity derived from it below — is iteration-order independent). -/

/-- Go map assignment `m[k] = v`: replace the binding in place or append. -/
def mapInsert {α : Type} (m : List (String × α)) (k : String) (v : α) :
    List (String × α) :=
  match m with
  | [] => [(k, v)]
  | (k', v') :: rest =>
    if k' = k then (k, v) :: rest else (k', v') :: mapInsert rest k v

/-- Go map read `v, ok := m[k]`. -/
def mapLookup {α : Type} (m : List (String × α)) (k : String) : Option α :=
  match m with
  | [] => none
  | (k', v) :: rest => if k' = k then some v else mapLookup rest k

/-- The name-indexed map one loop of `enterCompareMode` builds from a pane
listing, excluding the parent placeholder ".." (lines 3548-3560). -/
def buildFileMap (files : List FileItem) : List (String × FileItem) :=
  files.foldl
    (fun m f => if f.Name = ".." then m else mapInsert m f.Name f) []

/-- The both-sides classification of `enterCompareMode`
(lines 3570-3605): directories pair as identical; files pair by size and
modification time; mixed kinds are different. -/
def classifyPair (lf rf : FileItem) : CompareStatus :=
  if lf.IsDir ∧ rf.IsDir then ⟨"identical", some lf, some rf⟩
  else if ¬lf.IsDir ∧ ¬rf.IsDir then
    if lf.Size = rf.Size ∧ lf.ModTime = rf.ModTime then
      ⟨"identical", some lf, some rf⟩
    else ⟨"different", some lf, some rf⟩
  else ⟨"different", some lf, some rf⟩

/-- The two classification loops of `enterCompareMode` (lines 3568-3625):
every left-map entry is classified against the right map, then right-map
entries missing on the left are added as `right_only`. -/
def compareMapOf (leftM rightM : List (String × FileItem)) :
    List (String × CompareStatus) :=
  let m1 := leftM.foldl
    (fun acc e =>
      mapInsert acc e.1
        (match mapLookup rightM e.1 with
         | some rf => classifyPair e.2 rf
         | none => ⟨"left_only", some e.2, none⟩)) []
  rightM.foldl
    (fun acc e =>
      if mapLookup leftM e.1 = none then
        mapInsert acc e.1 ⟨"right_only", none, some e.2⟩
      else acc) m1

/-- Count of snapshot entries with a given status; equals the counter the
Go loops maintain incrementally, since every name is inserted exactly
once. -/
def countStatus (m : List (String × CompareStatus)) (s : String) : Nat :=
  (m.filter (fun e => e.2.Status = s)).length

/-- `enterCompareMode` (lines 3543-3634). -/
def enterCompareMode (c : Commander) : Commander :=
  let leftM := buildFileMap c.leftPane.Files
  let rightM := buildFileMap c.rightPane.Files
  let results := compareMapOf leftM rightM
  let total := results.length
  let lo := countStatus results "left_only"
  let ro := countStatus results "right_only"
  let df := countStatus results "different"
  let ident := countStatus results "identical"
  { c with
    compareResults := results
    compareMode := true
    statusMsg :=
      s!"Compare: {total} files | Left only: {lo} | Right only: {ro} | Different: {df} | Identical: {ident}" }

/-- `filepath.Join(dir, name)` as used by the sync operations. -/
def joinPath (dir name : String) : String := dir ++ "/" ++ name

/-- The target-collection portion of `syncLeftToRight`
(lines 3652-3684): entries explicitly selected in the left pane whose
status is `left_only` or `different`; if none qualifies, the highlighted
left-pane entry — but only when the left pane is the active pane. -/
def syncLeftToRightTargets (c : Commander) : List FileItem :=
  let filesToSync := c.leftPane.Files.foldl
    (fun acc f =>
      if f.Name = ".." then acc
      else if f.Selected then
        match mapLookup c.compareResults f.Name with
        | some st =>
          if st.Status = "left_only" ∨ st.Status = "different" then
            acc ++ [f]
          else acc
        | none => acc
      else acc) []
  if filesToSync.length = 0 ∧ c.activePane = PaneLeft ∧
      c.leftPane.Files.length > 0 then
    let file := c.leftPane.Files.getD c.leftPane.SelectedIdx default
    if file.Name ≠ ".." then
      match mapLookup c.compareResults file.Name with
      | some st =>
        if st.Status = "left_only" ∨ st.Status = "different" then [file]
        else []
      | none => []
    else []
  else filesToSync

/-- The copy operations `syncLeftToRight` issues: each target is copied
from its path to the right pane's directory (lines 3689-3697). -/
def syncLeftToRightOps (c : Commander) : List (String × String) :=
  (syncLeftToRightTargets c).map
    (fun f => (f.Path, joinPath c.rightPane.CurrentPath f.Name))

/-- The target-collection portion of `syncRightToLeft`
(lines 3723-3755), the mirror of `syncLeftToRightTargets`. -/
def syncRightToLeftTargets (c : Commander) : List FileItem :=
  let filesToSync := c.rightPane.Files.foldl
    (fun acc f =>
      if f.Name = ".." then acc
      else if f.Selected then
        match mapLookup c.compareResults f.Name with
        | some st =>
          if st.Status = "right_only" ∨ st.Status = "different" then
            acc ++ [f]
          else acc
        | none => acc
      else acc) []
  if filesToSync.length = 0 ∧ c.activePane = PaneRight ∧
      c.rightPane.Files.length > 0 then
    let file := c.rightPane.Files.getD c.rightPane.SelectedIdx default
    if file.Name ≠ ".." then
      match mapLookup c.compareResults file.Name with
      | some st =>
        if st.Status = "right_only" ∨ st.Status = "different" then [file]
        else []
      | none => []
    else []
  else filesToSync

/-- The copy operations `syncRightToLeft` issues (lines 3760-3768). -/
def syncRightToLeftOps (c : Commander) : List (String × String) :=
  (syncRightToLeftTargets c).map
    (fun f => (f.Path, joinPath c.leftPane.CurrentPath f.Name))

/-- `syncBothWays` (lines 3788-3859), modelled as the counter aggregation
`(leftCopied, rightCopied, newerCopied)` over the snapshot; copy outcomes
come from the oracle `copyOk : src → dst → Bool`. The Go status line
reports exactly these three counters (plus the last error), after which
the panes are refreshed and the snapshot rebuilt. Go dereferences the
`LeftFile`/`RightFile` pointers without nil checks; the `none` fallthrough
cases are unreachable for snapshots built by `enterCompareMode`. -/
def syncBothWays (copyOk : String → String → Bool) (c : Commander) :
    Nat × Nat × Nat :=
  c.compareResults.foldl
    (fun acc e =>
      if e.2.Status = "left_only" then
        match e.2.LeftFile with
        | some lf =>
          if copyOk lf.Path (joinPath c.rightPane.CurrentPath e.1) then
            (acc.1 + 1, acc.2.1, acc.2.2)
          else acc
        | none => acc
      else if e.2.Status = "right_only" then
        match e.2.RightFile with
        | some rf =>
          if copyOk rf.Path (joinPath c.leftPane.CurrentPath e.1) then
            (acc.1, acc.2.1 + 1, acc.2.2)
          else acc
        | none => acc
      else if e.2.Status = "different" then
        match e.2.LeftFile, e.2.RightFile with
        | some lf, some rf =>
          if ¬lf.IsDir ∧ ¬rf.IsDir then
            if lf.ModTime > rf.ModTime then
              (if copyOk lf.Path (joinPath c.rightPane.CurrentPath e.1) then
                (acc.1, acc.2.1, acc.2.2 + 1)
              else acc)
            else if rf.ModTime > lf.ModTime then
              (if copyOk rf.Path (joinPath c.leftPane.CurrentPath e.1) then
                (acc.1, acc.2.1, acc.2.2 + 1)
              else acc)
            else acc
          else acc
        | _, _ => acc
      else acc)
    (0, 0, 0)

/-! ## Shared concrete fixtures for witnesses and counterexamples -/

/-- A quiescent `Commander` used as the base of concrete test states. -/
def baseCommander : Commander where
  leftPane := ⟨"/l", [], 0⟩
  rightPane := ⟨"/r", [], 0⟩
  activePane := 0
  statusMsg := ""
  diffMode := false
  diffLeftLines := []
  diffRightLines := []
  diffLeftPath := ""
  diffRightPath := ""
  diffLeftModified := false
  diffRightModified := false
  diffCurrentIdx := 0
  diffDifferences := []
  diffScrollY := 0
  diffActiveSide := 0
  diffEditMode := false
  diffCursorX := 0
  diffCursorY := 0
  compareMode := false
  compareResults := []

/-! ## Claim theorems -/

/-- Claim C10: `copyDiffLeftToRight` mutates only the right line buffer,
the right modified flag, the recomputed block list, and the status
message — for every diff state the left buffer, both paths, the left
modified flag, the current block index, the scroll position, the edit
cursor, and all non-diff state are unchanged; `copyDiffRightToLeft`
satisfies the mirrored frame condition. -/
theorem copyDiff_frame (c : Commander) :
    ((copyDiffLeftToRight c).diffLeftLines = c.diffLeftLines ∧
     (copyDiffLeftToRight c).diffLeftPath = c.diffLeftPath ∧
     (copyDiffLeftToRight c).diffRightPath = c.diffRightPath ∧
     (copyDiffLeftToRight c).diffLeftModified = c.diffLeftModified ∧
     (copyDiffLeftToRight c).diffCurrentIdx = c.diffCurrentIdx ∧
     (copyDiffLeftToRight c).diffScrollY = c.diffScrollY ∧
     (copyDiffLeftToRight c).diffCursorX = c.diffCursorX ∧
     (copyDiffLeftToRight c).diffCursorY = c.diffCursorY ∧
     (copyDiffLeftToRight c).diffMode = c.diffMode ∧
     (copyDiffLeftToRight c).diffEditMode = c.diffEditMode ∧
     (copyDiffLeftToRight c).diffActiveSide = c.diffActiveSide ∧
     (copyDiffLeftToRight c).leftPane = c.leftPane ∧
     (copyDiffLeftToRight c).rightPane = c.rightPane ∧
     (copyDiffLeftToRight c).activePane = c.activePane ∧
     (copyDiffLeftToRight c).compareMode = c.compareMode ∧
     (copyDiffLeftToRight c).compareResults = c.compareResults) ∧
    ((copyDiffRightToLeft c).diffRightLines = c.diffRightLines ∧
     (copyDiffRightToLeft c).diffLeftPath = c.diffLeftPath ∧
     (copyDiffRightToLeft c).diffRightPath = c.diffRightPath ∧
     (copyDiffRightToLeft c).diffRightModified = c.diffRightModified ∧
     (copyDiffRightToLeft c).diffCurrentIdx = c.diffCurrentIdx ∧
     (copyDiffRightToLeft c).diffScrollY = c.diffScrollY ∧
     (copyDiffRightToLeft c).diffCursorX = c.diffCursorX ∧
     (copyDiffRightToLeft c).diffCursorY = c.diffCursorY ∧
     (copyDiffRightToLeft c).diffMode = c.diffMode ∧
     (copyDiffRightToLeft c).diffEditMode = c.diffEditMode ∧
     (copyDiffRightToLeft c).diffActiveSide = c.diffActiveSide ∧
     (copyDiffRightToLeft c).leftPane = c.leftPane ∧
     (copyDiffRightToLeft c).rightPane = c.rightPane ∧
     (copyDiffRightToLeft c).activePane = c.activePane ∧
     (copyDiffRightToLeft c).compareMode = c.compareMode ∧
     (copyDiffRightToLeft c).compareResults = c.compareResults) := by
  constructor
  · rw [copyDiffLeftToRight]
    split
    · simp [setStatus]
    · simp only []
      split
      · simp [setStatus]
      · simp
  · rw [copyDiffRightToLeft]
    split
    · simp [setStatus]
    · simp only []
      split
      · simp [setStatus]
      · simp

/-- Claim C5: with unsaved changes, the first `exitDiffMode` call keeps
the session open but clears both modified flags and reports a warning, so
a second call always closes it even though nothing was saved or
discarded; with neither flag set one call closes immediately. -/
theorem exitDiffMode_double (refresh : Pane → Pane) (c : Commander) :
    (c.diffLeftModified = true ∨ c.diffRightModified = true →
      (exitDiffMode refresh c).1.diffMode = c.diffMode ∧
      (exitDiffMode refresh c).1.diffLeftModified = false ∧
      (exitDiffMode refresh c).1.diffRightModified = false ∧
      (exitDiffMode refresh c).1.statusMsg =
        "Unsaved changes! Press Ctrl+S to save, ESC again to discard" ∧
      (exitDiffMode refresh (exitDiffMode refresh c).1).1.diffMode = false ∧
      (exitDiffMode refresh (exitDiffMode refresh c).1).1.statusMsg =
        "Diff mode exited") ∧
    (c.diffLeftModified = false → c.diffRightModified = false →
      (exitDiffMode refresh c).1.diffMode = false ∧
      (exitDiffMode refresh c).1.statusMsg = "Diff mode exited") := by
  constructor
  · intro h
    have hcond : c.diffLeftModified ∨ c.diffRightModified := by
      rcases h with h | h <;> simp [h]
    rw [exitDiffMode, if_pos hcond]
    have hinner :
        ¬(¬(setStatus c
            "Unsaved changes! Press Ctrl+S to save, ESC again to discard").diffLeftModified ∧
          ¬(setStatus c
            "Unsaved changes! Press Ctrl+S to save, ESC again to discard").diffRightModified) := by
      simp only [setStatus]
      rcases hcond with h' | h' <;> simp [h']
    rw [if_neg hinner]
    refine ⟨rfl, rfl, rfl, rfl, ?_, ?_⟩ <;>
      · rw [exitDiffMode, if_neg (by simp)]
  · intro hL hR
    rw [exitDiffMode, if_neg (by simp [hL, hR])]
    exact ⟨rfl, rfl⟩

/-- A concrete open session with unsaved left-side changes. -/
def modSession : Commander :=
  { baseCommander with diffMode := true, diffLeftModified := true }

/-- Witness for C5 at a concrete modified session: the first close keeps
the session open with cleared flags, the second closes it. -/
theorem exitDiffMode_double_witness :
    modSession.diffLeftModified = true ∧
    ((exitDiffMode id modSession).1.diffMode = true ∧
     (exitDiffMode id modSession).1.diffLeftModified = false ∧
     (exitDiffMode id modSession).1.diffRightModified = false ∧
     (exitDiffMode id (exitDiffMode id modSession).1).1.diffMode = false) := by
  have h1 := (exitDiffMode_double id modSession).1 (Or.inl rfl)
  exact ⟨rfl, h1.1, h1.2.1, h1.2.2.1, h1.2.2.2.2.1⟩

/-- Claim C1 (refuted — the code has a slip): the blocks of
`calculateDiff` are claimed to jointly partition both index ranges, but
on `L = ["x", "a"]`, `R = ["a"]` the equal block records `RightStart = 1`
(the left pointer at entry, Go line 2898) instead of `0`, so no block
covers right index `0` even though `R` has length `1`: the right ranges
are the two degenerate intervals `[0, -1]` and `[1, 0]`. -/
theorem calculateDiff_right_cover_bug :
    calculateDiff [['x'], ['a']] [['a']] =
      [⟨0, 0, 0, -1, "delete"⟩, ⟨1, 1, 1, 0, "equal"⟩] ∧
    ([['a']] : List Line).length = 1 ∧
    ∀ b ∈ calculateDiff [['x'], ['a']] [['a']],
      ¬(b.RightStart ≤ 0 ∧ (0 : Int) ≤ b.RightEnd) := by
  refine ⟨?_, rfl, ?_⟩ <;> rw [calculateDiff_eq_exec] <;> decide

/-- Concrete left-pane file for the diff-open fixtures. -/
def fileA : FileItem := ⟨"a.txt", false, 1, 0, "/l/a.txt", false⟩

/-- Concrete right-pane file for the diff-open fixtures. -/
def fileB : FileItem := ⟨"b.txt", false, 1, 0, "/r/b.txt", false⟩

/-- File-system oracle: both fixture files hold the single byte `a`
(no trailing newline). -/
def fsAB : String → Option (List Char) := fun p =>
  if p = "/l/a.txt" then some ['a']
  else if p = "/r/b.txt" then some ['a'] else none

/-- Panes with the two fixture files selected. -/
def diffPanes : Commander :=
  { baseCommander with
      leftPane := ⟨"/l", [fileA], 0⟩
      rightPane := ⟨"/r", [fileB], 0⟩ }

/-- Claim C3 (refuted): opening a diff session on content `C = "a"` and
calling save with no edits is claimed to leave the file equal to `C` with
its trailing newline normalized to exactly one; but `saveDiffFiles` only
writes sides whose modified flag is set, and a fresh session has both
flags clear, so nothing is written and the on-disk content stays `"a"`,
while the claimed normalized content is `"a\n"`. -/
theorem saveDiffFiles_no_edit_counter :
    (enterDiffMode fsAB diffPanes).diffMode = true ∧
    (enterDiffMode fsAB diffPanes).diffLeftModified = false ∧
    (enterDiffMode fsAB diffPanes).diffRightModified = false ∧
    (saveDiffFiles (fun _ _ => true) (enterDiffMode fsAB diffPanes)).2
      = [] ∧
    serializeLines (linesOf ['a']) = ['a', '\n'] ∧
    (['a'] : List Char) ≠ ['a', '\n'] := by
  refine ⟨?_, ?_, ?_, ?_, by decide, by decide⟩ <;> rfl

/-- Claim C3 (amended): with no edits both modified flags are clear, so
`saveDiffFiles` performs no write at all and reports "No changes to
save" — the on-disk content remains exactly `C`; the read/serialize round
trip itself yields `C` unchanged when `C` already ends in a newline and
`C` with one newline appended otherwise. -/
theorem saveDiffFiles_no_edit_spec (c : Commander)
    (wOk : String → List Char → Bool)
    (hL : c.diffLeftModified = false) (hR : c.diffRightModified = false) :
    (saveDiffFiles wOk c).2 = [] ∧
    (saveDiffFiles wOk c).1 = setStatus c "No changes to save" ∧
    ∀ C : List Char, serializeLines (linesOf C) =
      if C.getLast? = some '\n' then C else C ++ ['\n'] := by
  rw [saveDiffFiles, if_neg (by simp [hL]), if_neg (by simp [hR])]
  exact ⟨rfl, rfl, serializeLines_linesOf⟩

/-- Witness for (amended) C3 at the quiescent state. -/
theorem saveDiffFiles_no_edit_spec_witness :
    baseCommander.diffLeftModified = false ∧
    baseCommander.diffRightModified = false ∧
    ((saveDiffFiles (fun _ _ => true) baseCommander).2 = [] ∧
     (saveDiffFiles (fun _ _ => true) baseCommander).1 =
       setStatus baseCommander "No changes to save" ∧
     ∀ C : List Char, serializeLines (linesOf C) =
       if C.getLast? = some '\n' then C else C ++ ['\n']) :=
  ⟨rfl, rfl, saveDiffFiles_no_edit_spec baseCommander (fun _ _ => true)
    rfl rfl⟩

/-- The left-pane entry the open request resolves (`Files[SelectedIdx]`). -/
def leftSel (c : Commander) : FileItem :=
  c.leftPane.Files.getD c.leftPane.SelectedIdx default

/-- The right-pane entry the open request resolves. -/
def rightSel (c : Commander) : FileItem :=
  c.rightPane.Files.getD c.rightPane.SelectedIdx default

/-- The open-precondition failures of claim C6: an empty pane, a selected
directory, the parent placeholder, an unreadable file, or binary content
(NUL within the first 8 KiB) on either side. -/
def openRejected (fs : String → Option (List Char)) (c : Commander) :
    Prop :=
  c.leftPane.Files.length = 0 ∨ c.rightPane.Files.length = 0 ∨
  (leftSel c).IsDir = true ∨ (rightSel c).IsDir = true ∨
  (leftSel c).Name = ".." ∨ (rightSel c).Name = ".." ∨
  fs (leftSel c).Path = none ∨ fs (rightSel c).Path = none ∨
  (∃ lc, fs (leftSel c).Path = some lc ∧ isTextFile lc = false) ∨
  (∃ rc, fs (rightSel c).Path = some rc ∧ isTextFile rc = false)

/-- Claim C6: whenever an open request fails a precondition,
`enterDiffMode` only reports a status string: `diffMode` and every
diff-session field (buffers, paths, modified flags, indices, scroll,
cursor) are left untouched. -/
theorem enterDiffMode_rejected_frame (fs : String → Option (List Char))
    (c : Commander) (h : openRejected fs c) :
    (enterDiffMode fs c).diffMode = c.diffMode ∧
    (enterDiffMode fs c).diffLeftLines = c.diffLeftLines ∧
    (enterDiffMode fs c).diffRightLines = c.diffRightLines ∧
    (enterDiffMode fs c).diffLeftPath = c.diffLeftPath ∧
    (enterDiffMode fs c).diffRightPath = c.diffRightPath ∧
    (enterDiffMode fs c).diffLeftModified = c.diffLeftModified ∧
    (enterDiffMode fs c).diffRightModified = c.diffRightModified ∧
    (enterDiffMode fs c).diffCurrentIdx = c.diffCurrentIdx ∧
    (enterDiffMode fs c).diffDifferences = c.diffDifferences ∧
    (enterDiffMode fs c).diffScrollY = c.diffScrollY ∧
    (enterDiffMode fs c).diffActiveSide = c.diffActiveSide ∧
    (enterDiffMode fs c).diffEditMode = c.diffEditMode ∧
    (enterDiffMode fs c).diffCursorX = c.diffCursorX ∧
    (enterDiffMode fs c).diffCursorY = c.diffCursorY := by
  simp only [openRejected, leftSel, rightSel] at h
  rw [enterDiffMode]
  split
  · simp [setStatus]
  · next h1 =>
    simp only []
    split
    · simp [setStatus]
    · next h2 =>
      split
      · simp [setStatus]
      · next h3 =>
        split
        · simp [setStatus]
        · next lc heqL =>
          split
          · simp [setStatus]
          · next rc heqR =>
            split
            · simp [setStatus]
            · next h4 =>
              exfalso
              rcases h with h | h | h | h | h | h | h | h |
                ⟨lc', heq', htext⟩ | ⟨rc', heq', htext⟩
              · exact h1 (Or.inl h)
              · exact h1 (Or.inr h)
              · exact h2 (Or.inl h)
              · exact h2 (Or.inr h)
              · exact h3 (Or.inl h)
              · exact h3 (Or.inr h)
              · rw [heqL] at h; exact Option.some_ne_none lc h
              · rw [heqR] at h; exact Option.some_ne_none rc h
              · rw [heqL] at heq'
                obtain rfl := Option.some.inj heq'
                exact h4 (Or.inl (by simp [htext]))
              · rw [heqR] at heq'
                obtain rfl := Option.some.inj heq'
                exact h4 (Or.inr (by simp [htext]))

/-- Witness for C6: empty panes reject the open request and leave the
diff state untouched. -/
theorem enterDiffMode_rejected_frame_witness :
    openRejected (fun _ => none) baseCommander ∧
    ((enterDiffMode (fun _ => none) baseCommander).diffMode =
       baseCommander.diffMode ∧
     (enterDiffMode (fun _ => none) baseCommander).diffLeftLines =
       baseCommander.diffLeftLines ∧
     (enterDiffMode (fun _ => none) baseCommander).diffRightLines =
       baseCommander.diffRightLines ∧
     (enterDiffMode (fun _ => none) baseCommander).diffLeftPath =
       baseCommander.diffLeftPath ∧
     (enterDiffMode (fun _ => none) baseCommander).diffRightPath =
       baseCommander.diffRightPath ∧
     (enterDiffMode (fun _ => none) baseCommander).diffLeftModified =
       baseCommander.diffLeftModified ∧
     (enterDiffMode (fun _ => none) baseCommander).diffRightModified =
       baseCommander.diffRightModified ∧
     (enterDiffMode (fun _ => none) baseCommander).diffCurrentIdx =
       baseCommander.diffCurrentIdx ∧
     (enterDiffMode (fun _ => none) baseCommander).diffDifferences =
       baseCommander.diffDifferences ∧
     (enterDiffMode (fun _ => none) baseCommander).diffScrollY =
       baseCommander.diffScrollY ∧
     (enterDiffMode (fun _ => none) baseCommander).diffActiveSide =
       baseCommander.diffActiveSide ∧
     (enterDiffMode (fun _ => none) baseCommander).diffEditMode =
       baseCommander.diffEditMode ∧
     (enterDiffMode (fun _ => none) baseCommander).diffCursorX =
       baseCommander.diffCursorX ∧
     (enterDiffMode (fun _ => none) baseCommander).diffCursorY =
       baseCommander.diffCursorY) :=
  ⟨Or.inl rfl,
   enterDiffMode_rejected_frame (fun _ => none) baseCommander (Or.inl rfl)⟩

/-- Left-only entry of the C2 sync scenario. -/
def f1Item : FileItem := ⟨"f1", false, 1, 10, "/l/f1", false⟩

/-- Right-only entry of the C2 sync scenario. -/
def f2Item : FileItem := ⟨"f2", false, 2, 20, "/r/f2", false⟩

/-- Left side of the "different, left newer" entry of the C2 scenario. -/
def f3LeftItem : FileItem := ⟨"f3", false, 3, 30, "/l/f3", false⟩

/-- Right side of the "different, left newer" entry of the C2 scenario. -/
def f3RightItem : FileItem := ⟨"f3", false, 4, 20, "/r/f3", false⟩

/-- The C2 compare snapshot: f1 left_only, f2 right_only, f3 different
with the left file newer. -/
def syncScenario : Commander :=
  { baseCommander with
      compareMode := true
      compareResults :=
        [("f1", ⟨"left_only", some f1Item, none⟩),
         ("f2", ⟨"right_only", none, some f2Item⟩),
         ("f3", ⟨"different", some f3LeftItem, some f3RightItem⟩)] }

/-- Claim C2 (refuted): on the scenario snapshot with every copy
succeeding, `syncBothWays` is claimed to report `leftToRightCount = 2`
(f1 and f3); but the code counts the newer-file copy of f3 only in
`newerCopied` (line 3830), so the counters are `(1, 1, 1)` and the
left→right counter is `1`, not `2`. -/
theorem syncBothWays_count_counter :
    syncScenario.compareResults.map (fun e => (e.1, e.2.Status)) =
      [("f1", "left_only"), ("f2", "right_only"), ("f3", "different")] ∧
    f3LeftItem.IsDir = false ∧ f3RightItem.IsDir = false ∧
    f3LeftItem.ModTime > f3RightItem.ModTime ∧
    syncBothWays (fun _ _ => true) syncScenario = (1, 1, 1) ∧
    (syncBothWays (fun _ _ => true) syncScenario).1 ≠ 2 := by
  refine ⟨rfl, rfl, rfl, by decide, by decide, by decide⟩

/-- Claim C2 (amended): for a snapshot holding exactly f1 `left_only`,
f2 `right_only` and f3 `different` with both sides files and the left one
newer, `syncBothWays` with every copy succeeding reports
`leftToRightCount = 1` (f1), `rightToLeftCount = 1` (f2) and
`newerCopiedCount = 1` (f3). -/
theorem syncBothWays_scenario_spec (c : Commander)
    (copyOk : String → String → Bool) (n1 n2 n3 : String)
    (lf1 rf2 lf3 rf3 : FileItem)
    (hsnap : c.compareResults =
      [(n1, ⟨"left_only", some lf1, none⟩),
       (n2, ⟨"right_only", none, some rf2⟩),
       (n3, ⟨"different", some lf3, some rf3⟩)])
    (hl3 : lf3.IsDir = false) (hr3 : rf3.IsDir = false)
    (hnewer : lf3.ModTime > rf3.ModTime)
    (hcopy : ∀ s d, copyOk s d = true) :
    syncBothWays copyOk c = (1, 1, 1) := by
  rw [syncBothWays, hsnap]
  simp [hcopy, hl3, hr3, hnewer]

/-- Witness for (amended) C2 at the concrete scenario snapshot. -/
theorem syncBothWays_scenario_spec_witness :
    syncScenario.compareResults =
      [("f1", ⟨"left_only", some f1Item, none⟩),
       ("f2", ⟨"right_only", none, some f2Item⟩),
       ("f3", ⟨"different", some f3LeftItem, some f3RightItem⟩)] ∧
    f3LeftItem.IsDir = false ∧ f3RightItem.IsDir = false ∧
    f3LeftItem.ModTime > f3RightItem.ModTime ∧
    syncBothWays (fun _ _ => true) syncScenario = (1, 1, 1) :=
  ⟨rfl, rfl, rfl, by decide,
   syncBothWays_scenario_spec syncScenario (fun _ _ => true)
     "f1" "f2" "f3" f1Item f2Item f3LeftItem f3RightItem
     rfl rfl rfl (by decide) (fun _ _ => rfl)⟩

/-! ### The stale-index crash of the diff navigator (C8) -/

/-- Panes listing the two fixture files of the stale-index trace. -/
def stalePanes : Commander :=
  { baseCommander with
      leftPane := ⟨"/l", [⟨"a.txt", false, 4, 0, "/l/a.txt", false⟩], 0⟩
      rightPane := ⟨"/r", [⟨"b.txt", false, 4, 0, "/r/b.txt", false⟩], 0⟩ }

/-- File-system oracle for the trace: the left file holds "a\nx\n", the
right file "a\ny\n". -/
def fsXY : String → Option (List Char) := fun p =>
  if p = "/l/a.txt" then some ['a', '\n', 'x', '\n']
  else if p = "/r/b.txt" then some ['a', '\n', 'y', '\n'] else none

/-- The session right after opening the two fixture files: buffers
`["a","x"]` and `["a","y"]`, blocks `[equal 0-0, modify 1-1]`. -/
def staleOpen : Commander :=
  { stalePanes with
      diffMode := true
      diffLeftLines := [['a'], ['x']]
      diffRightLines := [['a'], ['y']]
      diffLeftPath := "/l/a.txt"
      diffRightPath := "/r/b.txt"
      diffLeftModified := false
      diffRightModified := false
      diffCurrentIdx := 0
      diffScrollY := 0
      diffActiveSide := 0
      diffEditMode := false
      diffCursorX := 0
      diffCursorY := 0
      diffDifferences := [⟨0, 0, 0, 0, "equal"⟩, ⟨1, 1, 1, 1, "modify"⟩]
      statusMsg :=
        "Diff mode: f/F/ESC:Exit n:Next p:Prev >:Copy→ <:Copy← e:Edit Ctrl+S:Save" }

/-- After pressing `n`: the modify block is selected. -/
def staleAfterNext : Commander :=
  { staleOpen with
      diffCurrentIdx := 1
      diffScrollY := 1
      statusMsg := "Difference 2/2" }

/-- After pressing `>`: the right buffer now matches the left one, the
recomputed diff is a single equal block — but `diffCurrentIdx` is still
`1`, one past the end of the new block list. -/
def staleSession : Commander :=
  { staleAfterNext with
      diffRightLines := [['a'], ['x']]
      diffRightModified := true
      diffDifferences := [⟨0, 1, 0, 1, "equal"⟩]
      statusMsg := "Copied left → right" }

/-- Splicing `src[s..e]` into `dst` in place of `dst[t..u]` makes the
region of the result starting at `t` equal to `src[s..e]`, provided the
four indices satisfy the block bounds. -/
theorem splice_region (src dst : List Line) (s e t u : Int)
    (h0s : 0 ≤ s) (he : e < (src.length : Int))
    (_h0t : 0 ≤ t) (htu : t ≤ u + 1) (hu : u < (dst.length : Int)) :
    ((dst.take t.toNat ++
        (if s ≤ e ∧ e < (src.length : Int) then
          (src.drop s.toNat).take (e - s + 1).toNat
        else []) ++
        (if u + 1 < (dst.length : Int) then dst.drop (u + 1).toNat
         else [])).drop t.toNat).take (e - s + 1).toNat =
      (src.drop s.toNat).take (e - s + 1).toNat := by
  have hlen : (dst.take t.toNat).length = t.toNat := by
    rw [List.length_take]; omega
  rw [List.append_assoc, List.drop_left' hlen]
  by_cases hcase : s ≤ e ∧ e < (src.length : Int)
  · rw [if_pos hcase]
    have hplen : ((src.drop s.toNat).take (e - s + 1).toNat).length =
        (e - s + 1).toNat := by
      rw [List.length_take, List.length_drop]; omega
    rw [List.take_left' hplen]
  · rw [if_neg hcase]
    have h0 : (e - s + 1).toNat = 0 := by omega
    rw [h0]
    simp

/-- The merge postcondition of claim C4 for `copyDiffLeftToRight`: the
region of the right buffer the block was spliced into equals the left
buffer's block range at the time of the copy, the right modified flag is
set, and the block list is the recomputed diff of the new buffers. -/
def copyLeftToRightPost (c : Commander) : Prop :=
  let d := c.diffDifferences.getD c.diffCurrentIdx default
  (((copyDiffLeftToRight c).diffRightLines.drop d.RightStart.toNat).take
      (d.LeftEnd - d.LeftStart + 1).toNat =
    (c.diffLeftLines.drop d.LeftStart.toNat).take
      (d.LeftEnd - d.LeftStart + 1).toNat) ∧
  (copyDiffLeftToRight c).diffRightModified = true ∧
  (copyDiffLeftToRight c).diffDifferences =
    calculateDiff (copyDiffLeftToRight c).diffLeftLines
      (copyDiffLeftToRight c).diffRightLines

/-- The mirrored merge postcondition for `copyDiffRightToLeft`. -/
def copyRightToLeftPost (c : Commander) : Prop :=
  let d := c.diffDifferences.getD c.diffCurrentIdx default
  (((copyDiffRightToLeft c).diffLeftLines.drop d.LeftStart.toNat).take
      (d.RightEnd - d.RightStart + 1).toNat =
    (c.diffRightLines.drop d.RightStart.toNat).take
      (d.RightEnd - d.RightStart + 1).toNat) ∧
  (copyDiffRightToLeft c).diffLeftModified = true ∧
  (copyDiffRightToLeft c).diffDifferences =
    calculateDiff (copyDiffRightToLeft c).diffLeftLines
      (copyDiffRightToLeft c).diffRightLines

/-- The right buffer after `copyDiffLeftToRight` splices the current
block's left range over its right range. -/
def mergedRight (c : Commander) : List Line :=
  let d := c.diffDifferences.getD c.diffCurrentIdx default
  c.diffRightLines.take d.RightStart.toNat ++
    (if d.LeftStart ≤ d.LeftEnd ∧
        d.LeftEnd < (c.diffLeftLines.length : Int) then
      (c.diffLeftLines.drop d.LeftStart.toNat).take
        (d.LeftEnd - d.LeftStart + 1).toNat
    else []) ++
    (if d.RightEnd + 1 < (c.diffRightLines.length : Int) then
      c.diffRightLines.drop (d.RightEnd + 1).toNat
    else [])

/-- The left buffer after `copyDiffRightToLeft`. -/
def mergedLeft (c : Commander) : List Line :=
  let d := c.diffDifferences.getD c.diffCurrentIdx default
  c.diffLeftLines.take d.LeftStart.toNat ++
    (if d.RightStart ≤ d.RightEnd ∧
        d.RightEnd < (c.diffRightLines.length : Int) then
      (c.diffRightLines.drop d.RightStart.toNat).take
        (d.RightEnd - d.RightStart + 1).toNat
    else []) ++
    (if d.LeftEnd + 1 < (c.diffLeftLines.length : Int) then
      c.diffLeftLines.drop (d.LeftEnd + 1).toNat
    else [])

theorem copyDiffLeftToRight_eq (c : Commander)
    (hidx : c.diffCurrentIdx < c.diffDifferences.length)
    (hne : (c.diffDifferences.getD c.diffCurrentIdx default).typ ≠
      "equal") :
    copyDiffLeftToRight c =
      { c with
        diffRightLines := mergedRight c
        diffRightModified := true
        diffDifferences := calculateDiff c.diffLeftLines (mergedRight c)
        statusMsg := "Copied left → right" } := by
  rw [copyDiffLeftToRight, if_neg (by omega)]
  simp only []
  rw [if_neg hne]
  rfl

theorem copyDiffRightToLeft_eq (c : Commander)
    (hidx : c.diffCurrentIdx < c.diffDifferences.length)
    (hne : (c.diffDifferences.getD c.diffCurrentIdx default).typ ≠
      "equal") :
    copyDiffRightToLeft c =
      { c with
        diffLeftLines := mergedLeft c
        diffLeftModified := true
        diffDifferences := calculateDiff (mergedLeft c) c.diffRightLines
        statusMsg := "Copied right → left" } := by
  rw [copyDiffRightToLeft, if_neg (by omega)]
  simp only []
  rw [if_neg hne]
  rfl

/-- Claim C4: in a live diff state whose current block is not "equal",
`copyDiffLeftToRight` leaves the spliced region of the right buffer
element-wise equal to the left range of the block as it was at the time
of the copy, sets the right modified flag, and recomputes the diff over
the mutated buffers; `copyDiffRightToLeft` satisfies the mirrored
postcondition. -/
theorem copyDiff_merge_spec (c : Commander)
    (hwf : c.diffDifferences =
      calculateDiff c.diffLeftLines c.diffRightLines)
    (hidx : c.diffCurrentIdx < c.diffDifferences.length)
    (hne : (c.diffDifferences.getD c.diffCurrentIdx default).typ ≠
      "equal") :
    copyLeftToRightPost c ∧ copyRightToLeftPost c := by
  have hg : c.diffDifferences.getD c.diffCurrentIdx default =
      c.diffDifferences[c.diffCurrentIdx] := by
    rw [List.getD_eq_getElem?_getD, List.getElem?_eq_getElem hidx]
    rfl
  have hd : c.diffDifferences.getD c.diffCurrentIdx default ∈
      c.diffDifferences := by
    rw [hg]; exact List.getElem_mem hidx
  obtain ⟨hb1, hb2, hb3, hb4, hb5, hb6⟩ :=
    calculateDiff_nonequal_bounds c.diffLeftLines c.diffRightLines _
      (hwf ▸ hd) hne
  constructor
  · unfold copyLeftToRightPost
    rw [copyDiffLeftToRight_eq c hidx hne]
    refine ⟨?_, rfl, rfl⟩
    unfold mergedRight
    exact splice_region c.diffLeftLines c.diffRightLines _ _ _ _
      hb1 hb3 hb4 hb5 hb6
  · unfold copyRightToLeftPost
    rw [copyDiffRightToLeft_eq c hidx hne]
    refine ⟨?_, rfl, rfl⟩
    unfold mergedLeft
    exact splice_region c.diffRightLines c.diffLeftLines _ _ _ _
      hb4 hb6 hb1 hb2 hb3

/-- A well-formed one-block session: buffers `["a"]` and `["b"]` with the
diff freshly computed (a single "modify" block). -/
def wfDiffSession : Commander :=
  { baseCommander with
      diffMode := true
      diffLeftLines := [['a']]
      diffRightLines := [['b']]
      diffDifferences := calculateDiff [['a']] [['b']]
      diffCurrentIdx := 0 }

/-- Witness for C4 at the concrete one-block modify session. -/
theorem copyDiff_merge_spec_witness :
    wfDiffSession.diffDifferences =
      calculateDiff wfDiffSession.diffLeftLines
        wfDiffSession.diffRightLines ∧
    wfDiffSession.diffCurrentIdx <
      wfDiffSession.diffDifferences.length ∧
    (wfDiffSession.diffDifferences.getD wfDiffSession.diffCurrentIdx
      default).typ ≠ "equal" ∧
    (copyLeftToRightPost wfDiffSession ∧
     copyRightToLeftPost wfDiffSession) := by
  have h1 : wfDiffSession.diffCurrentIdx <
      wfDiffSession.diffDifferences.length := by
    show 0 < (calculateDiff [['a']] [['b']]).length
    rw [calculateDiff_eq_exec]; decide
  have h2 : (wfDiffSession.diffDifferences.getD
      wfDiffSession.diffCurrentIdx default).typ ≠ "equal" := by
    show ((calculateDiff [['a']] [['b']]).getD 0 default).typ ≠ "equal"
    rw [calculateDiff_eq_exec]; decide
  exact ⟨rfl, h1, h2, copyDiff_merge_spec wfDiffSession rfl h1 h2⟩

/-- Claim C8 (the claim matches the intent, the code crashes): on the
reachable trace — open `["a","x"]` against `["a","y"]`, press `n` (the
modify block is selected), press `>` (the merge makes the buffers equal
and the recompute shrinks the block list to one equal block, while
`diffCurrentIdx` stays `1`), press `n` again — the resulting diff state
has no non-equal block, yet `jumpToNextDiff` does not report
"no differences": its wrap loop reaches `c.diffDifferences[1]` with only
one block and panics with an index-out-of-range error (`none` here). -/
theorem jumpToNextDiff_stale_panic :
    enterDiffMode fsXY stalePanes = staleOpen ∧
    jumpToNextDiff staleOpen = some staleAfterNext ∧
    copyDiffLeftToRight staleAfterNext = staleSession ∧
    (∀ b ∈ staleSession.diffDifferences, b.typ = "equal") ∧
    staleSession.diffDifferences.length = 1 ∧
    staleSession.diffCurrentIdx = 1 ∧
    jumpToNextDiff staleSession = none := by
  have hcalc : calculateDiff [['a'], ['x']] [['a'], ['y']] =
      [⟨0, 0, 0, 0, "equal"⟩, ⟨1, 1, 1, 1, "modify"⟩] := by
    rw [calculateDiff_eq_exec]; decide
  have hcalc2 : calculateDiff [['a'], ['x']] [['a'], ['x']] =
      [⟨0, 1, 0, 1, "equal"⟩] := by
    rw [calculateDiff_eq_exec]; decide
  refine ⟨?_, ?_, ?_, by decide, by decide, by decide, ?_⟩
  · rw [enterDiffMode, if_neg (by decide)]
    simp only []
    rw [if_neg (by decide), if_neg (by decide)]
    split
    · next heq => exact absurd heq (by decide)
    · next lc heq =>
      have hv : fsXY (stalePanes.leftPane.Files.getD
          stalePanes.leftPane.SelectedIdx default).Path =
          some ['a', '\n', 'x', '\n'] := by decide
      rw [hv] at heq
      obtain rfl := Option.some.inj heq
      split
      · next heq2 => exact absurd heq2 (by decide)
      · next rc heq2 =>
        have hw : fsXY (stalePanes.rightPane.Files.getD
            stalePanes.rightPane.SelectedIdx default).Path =
            some ['a', '\n', 'y', '\n'] := by decide
        rw [hw] at heq2
        obtain rfl := Option.some.inj heq2
        rw [if_neg (by decide)]
        rw [show linesOf ['a', '\n', 'x', '\n'] = [['a'], ['x']] from
          by decide]
        rw [show linesOf ['a', '\n', 'y', '\n'] = [['a'], ['y']] from
          by decide]
        rw [hcalc]
        decide
  · rw [jumpToNextDiff, if_neg (by decide)]
    have hs : scanIdx staleOpen.diffDifferences
        (staleOpen.diffCurrentIdx + 1) staleOpen.diffDifferences.length =
        some 1 := by
      show scanIdx staleOpen.diffDifferences 1 2 = some 1
      rw [scanIdx, if_pos (by decide), if_pos (by decide)]
    rw [hs]
    decide
  · rw [copyDiffLeftToRight_eq staleAfterNext (by decide) (by decide)]
    rw [show mergedRight staleAfterNext = [['a'], ['x']] from by decide]
    rw [show staleAfterNext.diffLeftLines = [['a'], ['x']] from by decide]
    rw [hcalc2]
    decide
  · rw [jumpToNextDiff, if_neg (by decide)]
    have hs1 : scanIdx staleSession.diffDifferences
        (staleSession.diffCurrentIdx + 1)
        staleSession.diffDifferences.length = none := by
      show scanIdx staleSession.diffDifferences 2 1 = none
      rw [scanIdx, if_neg (by decide)]
    have hs2 : scanIdx staleSession.diffDifferences 0
        (min (staleSession.diffCurrentIdx + 1)
          staleSession.diffDifferences.length) = none := by
      show scanIdx staleSession.diffDifferences 0 1 = none
      rw [scanIdx, if_pos (by decide), if_neg (by decide)]
      rw [scanIdx, if_neg (by decide)]
    rw [hs1, hs2]
    decide

/-! ### Association-list map lemmas -/

/-- Key list of a modelled Go map. -/
def mapKeys {α : Type} (m : List (String × α)) : List String :=
  m.map Prod.fst

theorem mapLookup_mapInsert {α : Type} (m : List (String × α))
    (k : String) (v : α) (k' : String) :
    mapLookup (mapInsert m k v) k' =
      if k = k' then some v else mapLookup m k' := by
  induction m with
  | nil => simp [mapInsert, mapLookup]
  | cons e rest ih =>
    obtain ⟨a, b⟩ := e
    by_cases hak : a = k
    · subst hak
      by_cases hkk : a = k'
      · subst hkk; simp [mapInsert, mapLookup]
      · simp [mapInsert, mapLookup, hkk]
    · by_cases hak' : a = k'
      · subst hak'
        have : ¬k = a := fun h => hak h.symm
        simp [mapInsert, mapLookup, hak, this]
      · simp [mapInsert, mapLookup, hak, hak', ih]

theorem mapLookup_mem_keys {α : Type} (m : List (String × α)) (k : String)
    (v : α) : mapLookup m k = some v → k ∈ mapKeys m := by
  induction m with
  | nil => intro h; exact absurd h (by simp [mapLookup])
  | cons e rest ih =>
    obtain ⟨a, b⟩ := e
    by_cases hak : a = k
    · subst hak; intro _; simp [mapKeys]
    · rw [mapLookup, if_neg hak]
      intro h
      simp only [mapKeys, List.map_cons, List.mem_cons]
      exact Or.inr (ih h)

theorem mapKeys_mapInsert_sub {α : Type} (m : List (String × α))
    (k : String) (v : α) :
    ∀ x ∈ mapKeys (mapInsert m k v), x ∈ mapKeys m ∨ x = k := by
  induction m with
  | nil => intro x hx; simp [mapInsert, mapKeys] at hx; exact Or.inr hx
  | cons e rest ih =>
    obtain ⟨a, b⟩ := e
    intro x hx
    by_cases hak : a = k
    · rw [mapInsert, if_pos hak] at hx
      simp only [mapKeys, List.map_cons, List.mem_cons] at hx
      rcases hx with rfl | hx
      · exact Or.inr rfl
      · exact Or.inl (List.mem_cons_of_mem a hx)
    · rw [mapInsert, if_neg hak] at hx
      simp only [mapKeys, List.map_cons, List.mem_cons] at hx
      rcases hx with rfl | hx
      · exact Or.inl (by simp [mapKeys])
      · rcases ih x hx with h | h
        · exact Or.inl
            (List.mem_cons_of_mem a (by simpa [mapKeys] using h))
        · exact Or.inr h

theorem nodup_mapKeys_mapInsert {α : Type} (m : List (String × α))
    (k : String) (v : α) (h : (mapKeys m).Nodup) :
    (mapKeys (mapInsert m k v)).Nodup := by
  induction m with
  | nil => simp [mapInsert, mapKeys]
  | cons e rest ih =>
    obtain ⟨a, b⟩ := e
    simp only [mapKeys, List.map_cons, List.nodup_cons] at h
    by_cases hak : a = k
    · rw [mapInsert, if_pos hak]
      simp only [mapKeys, List.map_cons, List.nodup_cons]
      exact ⟨by rw [← hak]; simpa [mapKeys] using h.1, h.2⟩
    · rw [mapInsert, if_neg hak]
      simp only [mapKeys, List.map_cons, List.nodup_cons]
      refine ⟨?_, by simpa [mapKeys] using ih h.2⟩
      intro hmem
      rcases mapKeys_mapInsert_sub rest k v a (by simpa [mapKeys] using hmem)
        with hm | hm
      · exact h.1 (by simpa [mapKeys] using hm)
      · exact hak hm

theorem buildFileMap_nodup (files : List FileItem) :
    (mapKeys (buildFileMap files)).Nodup := by
  have key : ∀ (l : List FileItem) (acc : List (String × FileItem)),
      (mapKeys acc).Nodup →
      (mapKeys (l.foldl
        (fun m f => if f.Name = ".." then m else mapInsert m f.Name f)
        acc)).Nodup := by
    intro l
    induction l with
    | nil => intro acc h; exact h
    | cons f rest ih =>
      intro acc h
      rw [List.foldl_cons]
      split
      · exact ih acc h
      · exact ih _ (nodup_mapKeys_mapInsert acc f.Name f h)
  exact key files [] (by simp [mapKeys])

theorem foldl_mapInsert_lookup {α β : Type} (g : String × α → β)
    (l : List (String × α)) :
    ∀ (acc : List (String × β)) (name : String),
      (mapKeys l).Nodup →
      mapLookup (l.foldl (fun a e => mapInsert a e.1 (g e)) acc) name =
        (match mapLookup l name with
         | some v => some (g (name, v))
         | none => mapLookup acc name) := by
  induction l with
  | nil => intro acc name _; simp [mapLookup]
  | cons e rest ih =>
    obtain ⟨k, v⟩ := e
    intro acc name hnd
    simp only [mapKeys, List.map_cons, List.nodup_cons] at hnd
    rw [List.foldl_cons, ih _ name (by simpa [mapKeys] using hnd.2)]
    cases h : mapLookup rest name with
    | some v' =>
      have hkn : ¬k = name := by
        intro he
        exact hnd.1 (by
          subst he
          simpa [mapKeys] using mapLookup_mem_keys rest k v' h)
      simp [mapLookup, hkn, h]
    | none =>
      rw [mapLookup_mapInsert]
      by_cases hkn : k = name
      · subst hkn; simp [mapLookup, h]
      · simp [mapLookup, hkn, h]

theorem foldl_rightOnly_lookup (leftM : List (String × FileItem))
    (l : List (String × FileItem)) :
    ∀ (acc : List (String × CompareStatus)) (name : String),
      (mapKeys l).Nodup →
      mapLookup (l.foldl (fun a e =>
          if mapLookup leftM e.1 = none then
            mapInsert a e.1 ⟨"right_only", none, some e.2⟩
          else a) acc) name =
        if mapLookup leftM name = none then
          (match mapLookup l name with
           | some v => some ⟨"right_only", none, some v⟩
           | none => mapLookup acc name)
        else mapLookup acc name := by
  induction l with
  | nil =>
    intro acc name _
    split <;> simp [mapLookup]
  | cons e rest ih =>
    obtain ⟨k, v⟩ := e
    intro acc name hnd
    simp only [mapKeys, List.map_cons, List.nodup_cons] at hnd
    rw [List.foldl_cons, ih _ name (by simpa [mapKeys] using hnd.2)]
    by_cases hLn : mapLookup leftM name = none
    · rw [if_pos hLn, if_pos hLn]
      cases h : mapLookup rest name with
      | some v' =>
        have hkn : ¬k = name := by
          intro he
          exact hnd.1 (by
            subst he
            simpa [mapKeys] using mapLookup_mem_keys rest k v' h)
        simp [mapLookup, hkn, h]
      | none =>
        by_cases hkn : k = name
        · subst hkn
          rw [if_pos hLn, mapLookup_mapInsert, if_pos rfl]
          simp [mapLookup, h]
        · have hacc : mapLookup
              (if mapLookup leftM k = none then
                mapInsert acc k ⟨"right_only", none, some v⟩
              else acc) name = mapLookup acc name := by
            split
            · rw [mapLookup_mapInsert, if_neg hkn]
            · rfl
          rw [hacc]
          simp [mapLookup, hkn, h]
    · rw [if_neg hLn, if_neg hLn]
      by_cases hkn : k = name
      · subst hkn
        rw [if_neg hLn]
      · split
        · rw [mapLookup_mapInsert, if_neg hkn]
        · rfl

/-- The per-name classification table exactly as claim C7 states it:
one-sided names are `left_only`/`right_only`; directory pairs are
`identical`; file pairs are `identical` iff size and modification time
both match, else `different`; mixed kinds are `different`. -/
def specCompareStatus :
    Option FileItem → Option FileItem → Option String
  | some _, none => some "left_only"
  | none, some _ => some "right_only"
  | none, none => none
  | some lf, some rf =>
    if lf.IsDir ∧ rf.IsDir then some "identical"
    else if ¬lf.IsDir ∧ ¬rf.IsDir then
      if lf.Size = rf.Size ∧ lf.ModTime = rf.ModTime then
        some "identical"
      else some "different"
    else some "different"

/-- Claim C7: `enterCompareMode` classifies every name (the parent
placeholder excluded from both sides) exactly by the spec's table —
one side only, directory pair, file pair by size and modification time,
mixed kinds — and two empty listings produce an empty snapshot. -/
theorem enterCompareMode_classification (c : Commander) :
    (∀ name,
      (mapLookup (enterCompareMode c).compareResults name).map
        (fun st => st.Status) =
      specCompareStatus (mapLookup (buildFileMap c.leftPane.Files) name)
        (mapLookup (buildFileMap c.rightPane.Files) name)) ∧
    (c.leftPane.Files = [] → c.rightPane.Files = [] →
      (enterCompareMode c).compareResults = []) := by
  constructor
  · intro name
    have hres : (enterCompareMode c).compareResults =
        compareMapOf (buildFileMap c.leftPane.Files)
          (buildFileMap c.rightPane.Files) := rfl
    rw [hres, compareMapOf]
    rw [foldl_rightOnly_lookup _ _ _ name
      (buildFileMap_nodup c.rightPane.Files)]
    rw [foldl_mapInsert_lookup _ _ _ name
      (buildFileMap_nodup c.leftPane.Files)]
    cases hL : mapLookup (buildFileMap c.leftPane.Files) name with
    | some lf =>
      rw [if_neg (by simp)]
      simp only []
      cases hR : mapLookup (buildFileMap c.rightPane.Files) name with
      | some rf =>
        by_cases hd1 : lf.IsDir <;> by_cases hd2 : rf.IsDir <;>
          by_cases hst : lf.Size = rf.Size ∧ lf.ModTime = rf.ModTime <;>
          simp [specCompareStatus, classifyPair, hd1, hd2, hst]
      | none =>
        simp [specCompareStatus]
    | none =>
      rw [if_pos rfl]
      cases hR : mapLookup (buildFileMap c.rightPane.Files) name with
      | some rf =>
        simp [specCompareStatus]
      | none =>
        simp [mapLookup, specCompareStatus]
  · intro h1 h2
    show compareMapOf (buildFileMap c.leftPane.Files)
      (buildFileMap c.rightPane.Files) = []
    rw [h1, h2]
    rfl

/-- Witness for C7: the empty-pane state yields the empty snapshot, and
the classification table holds pointwise for it. -/
theorem enterCompareMode_classification_witness :
    baseCommander.leftPane.Files = [] ∧
    baseCommander.rightPane.Files = [] ∧
    (enterCompareMode baseCommander).compareResults = [] ∧
    (∀ name,
      (mapLookup (enterCompareMode baseCommander).compareResults
        name).map (fun st => st.Status) =
      specCompareStatus
        (mapLookup (buildFileMap baseCommander.leftPane.Files) name)
        (mapLookup (buildFileMap baseCommander.rightPane.Files) name)) :=
  ⟨rfl, rfl,
   (enterCompareMode_classification baseCommander).2 rfl rfl,
   (enterCompareMode_classification baseCommander).1⟩

/-! ### Sync target characterization (C9) -/

/-- An entry of the left pane qualifies for the multi-selection pass of
`syncLeftToRight`: not the parent placeholder, explicitly selected, and
classified `left_only` or `different`. -/
def leftSyncEligible (c : Commander) (f : FileItem) : Bool :=
  decide (f.Name ≠ "..") && f.Selected &&
    (match mapLookup c.compareResults f.Name with
     | some st =>
       decide (st.Status = "left_only" ∨ st.Status = "different")
     | none => false)

/-- The left pane's highlighted entry qualifies for the fallback pass. -/
def leftHighlightEligible (c : Commander) : Bool :=
  decide ((leftSel c).Name ≠ "..") &&
    (match mapLookup c.compareResults (leftSel c).Name with
     | some st =>
       decide (st.Status = "left_only" ∨ st.Status = "different")
     | none => false)

/-- An entry of the right pane qualifies for the multi-selection pass of
`syncRightToLeft`. -/
def rightSyncEligible (c : Commander) (f : FileItem) : Bool :=
  decide (f.Name ≠ "..") && f.Selected &&
    (match mapLookup c.compareResults f.Name with
     | some st =>
       decide (st.Status = "right_only" ∨ st.Status = "different")
     | none => false)

/-- The right pane's highlighted entry qualifies for the fallback pass. -/
def rightHighlightEligible (c : Commander) : Bool :=
  decide ((rightSel c).Name ≠ "..") &&
    (match mapLookup c.compareResults (rightSel c).Name with
     | some st =>
       decide (st.Status = "right_only" ∨ st.Status = "different")
     | none => false)

theorem foldl_append_filter {β : Type} (p : β → Bool)
    (step : List β → β → List β)
    (hstep : ∀ acc f, step acc f = if p f then acc ++ [f] else acc) :
    ∀ (l : List β) (acc : List β),
      l.foldl step acc = acc ++ l.filter p := by
  intro l
  induction l with
  | nil => intro acc; simp
  | cons f rest ih =>
    intro acc
    rw [List.foldl_cons, hstep, ih]
    cases hp : p f <;> simp [List.filter_cons, hp]

theorem leftSyncFold_eq_filter (c : Commander) :
    c.leftPane.Files.foldl
      (fun acc f =>
        if f.Name = ".." then acc
        else if f.Selected then
          match mapLookup c.compareResults f.Name with
          | some st =>
            if st.Status = "left_only" ∨ st.Status = "different" then
              acc ++ [f]
            else acc
          | none => acc
        else acc) [] =
    c.leftPane.Files.filter (leftSyncEligible c) := by
  rw [foldl_append_filter (leftSyncEligible c)]
  · simp
  · intro acc f
    unfold leftSyncEligible
    by_cases h1 : f.Name = ".."
    · simp [h1]
    · cases h2 : f.Selected
      · simp [h1, h2]
      · cases hm : mapLookup c.compareResults f.Name with
        | some st =>
          by_cases h3 : st.Status = "left_only" ∨ st.Status = "different"
          · simp [h1, h2, hm, h3]
          · simp [h1, h2, hm, h3]
        | none => simp [h1, h2, hm]

theorem rightSyncFold_eq_filter (c : Commander) :
    c.rightPane.Files.foldl
      (fun acc f =>
        if f.Name = ".." then acc
        else if f.Selected then
          match mapLookup c.compareResults f.Name with
          | some st =>
            if st.Status = "right_only" ∨ st.Status = "different" then
              acc ++ [f]
            else acc
          | none => acc
        else acc) [] =
    c.rightPane.Files.filter (rightSyncEligible c) := by
  rw [foldl_append_filter (rightSyncEligible c)]
  · simp
  · intro acc f
    unfold rightSyncEligible
    by_cases h1 : f.Name = ".."
    · simp [h1]
    · cases h2 : f.Selected
      · simp [h1, h2]
      · cases hm : mapLookup c.compareResults f.Name with
        | some st =>
          by_cases h3 : st.Status = "right_only" ∨ st.Status = "different"
          · simp [h1, h2, hm, h3]
          · simp [h1, h2, hm, h3]
        | none => simp [h1, h2, hm]

/-- Claim C9 (amended): the copy operations issued by `syncLeftToRight`
target exactly the multi-selected left-pane entries whose status is
`left_only` or `different`; when no selected entry qualifies they fall
back to the single highlighted entry — but only when the left pane is the
active pane and that entry (not the parent placeholder) has a compatible
status. Each target is copied to the opposite pane's directory.
`syncRightToLeft` mirrors this with the right pane and
`right_only`/`different`. -/
theorem syncTargets_spec (c : Commander) :
    (c.leftPane.Files.filter (leftSyncEligible c) ≠ [] →
      syncLeftToRightOps c =
        (c.leftPane.Files.filter (leftSyncEligible c)).map
          (fun f => (f.Path, joinPath c.rightPane.CurrentPath f.Name))) ∧
    (c.leftPane.Files.filter (leftSyncEligible c) = [] →
      syncLeftToRightOps c =
        (if c.activePane = PaneLeft ∧ c.leftPane.Files ≠ [] ∧
            leftHighlightEligible c = true then
          [((leftSel c).Path,
            joinPath c.rightPane.CurrentPath (leftSel c).Name)]
        else [])) ∧
    (c.rightPane.Files.filter (rightSyncEligible c) ≠ [] →
      syncRightToLeftOps c =
        (c.rightPane.Files.filter (rightSyncEligible c)).map
          (fun f => (f.Path, joinPath c.leftPane.CurrentPath f.Name))) ∧
    (c.rightPane.Files.filter (rightSyncEligible c) = [] →
      syncRightToLeftOps c =
        (if c.activePane = PaneRight ∧ c.rightPane.Files ≠ [] ∧
            rightHighlightEligible c = true then
          [((rightSel c).Path,
            joinPath c.leftPane.CurrentPath (rightSel c).Name)]
        else [])) := by
  have htgtL : syncLeftToRightTargets c =
      (if (c.leftPane.Files.filter (leftSyncEligible c)).length = 0 ∧
          c.activePane = PaneLeft ∧ c.leftPane.Files.length > 0 then
        (let file := c.leftPane.Files.getD c.leftPane.SelectedIdx default
         if file.Name ≠ ".." then
           match mapLookup c.compareResults file.Name with
           | some st =>
             if st.Status = "left_only" ∨ st.Status = "different" then
               [file]
             else []
           | none => []
         else [])
      else c.leftPane.Files.filter (leftSyncEligible c)) := by
    rw [syncLeftToRightTargets, leftSyncFold_eq_filter c]
  have htgtR : syncRightToLeftTargets c =
      (if (c.rightPane.Files.filter (rightSyncEligible c)).length = 0 ∧
          c.activePane = PaneRight ∧ c.rightPane.Files.length > 0 then
        (let file := c.rightPane.Files.getD c.rightPane.SelectedIdx default
         if file.Name ≠ ".." then
           match mapLookup c.compareResults file.Name with
           | some st =>
             if st.Status = "right_only" ∨ st.Status = "different" then
               [file]
             else []
           | none => []
         else [])
      else c.rightPane.Files.filter (rightSyncEligible c)) := by
    rw [syncRightToLeftTargets, rightSyncFold_eq_filter c]
  have hfbL :
      (let file := c.leftPane.Files.getD c.leftPane.SelectedIdx default
       if file.Name ≠ ".." then
         match mapLookup c.compareResults file.Name with
         | some st =>
           if st.Status = "left_only" ∨ st.Status = "different" then
             [file]
           else []
         | none => []
       else []) =
      (if leftHighlightEligible c = true then [leftSel c] else []) := by
    simp only [leftHighlightEligible, leftSel]
    by_cases h1 :
        (c.leftPane.Files.getD c.leftPane.SelectedIdx default).Name ≠ ".."
    · cases hm : mapLookup c.compareResults
          (c.leftPane.Files.getD c.leftPane.SelectedIdx default).Name with
      | some st =>
        by_cases h3 : st.Status = "left_only" ∨ st.Status = "different"
        · simp [h1, hm, h3]
        · simp [h1, hm, h3]
      | none => simp [h1, hm]
    · have hname :
          (c.leftPane.Files.getD c.leftPane.SelectedIdx default).Name =
            ".." := not_not.mp h1
      simp only [List.getD_eq_getElem?_getD] at hname
      simp [hname]
  have hfbR :
      (let file := c.rightPane.Files.getD c.rightPane.SelectedIdx default
       if file.Name ≠ ".." then
         match mapLookup c.compareResults file.Name with
         | some st =>
           if st.Status = "right_only" ∨ st.Status = "different" then
             [file]
           else []
         | none => []
       else []) =
      (if rightHighlightEligible c = true then [rightSel c] else []) := by
    simp only [rightHighlightEligible, rightSel]
    by_cases h1 :
        (c.rightPane.Files.getD c.rightPane.SelectedIdx default).Name ≠ ".."
    · cases hm : mapLookup c.compareResults
          (c.rightPane.Files.getD c.rightPane.SelectedIdx default).Name with
      | some st =>
        by_cases h3 : st.Status = "right_only" ∨ st.Status = "different"
        · simp [h1, hm, h3]
        · simp [h1, hm, h3]
      | none => simp [h1, hm]
    · have hname :
          (c.rightPane.Files.getD c.rightPane.SelectedIdx default).Name =
            ".." := not_not.mp h1
      simp only [List.getD_eq_getElem?_getD] at hname
      simp [hname]
  refine ⟨?_, ?_, ?_, ?_⟩
  · intro hne
    rw [syncLeftToRightOps, htgtL,
      if_neg (by simp [List.length_eq_zero, hne])]
  · intro heq
    rw [syncLeftToRightOps, htgtL, heq, hfbL]
    by_cases hA : c.activePane = PaneLeft <;>
      by_cases hF : c.leftPane.Files = [] <;>
      by_cases hH : leftHighlightEligible c = true <;>
      simp [hA, hF, hH, List.length_pos, leftSel]
  · intro hne
    rw [syncRightToLeftOps, htgtR,
      if_neg (by simp [List.length_eq_zero, hne])]
  · intro heq
    rw [syncRightToLeftOps, htgtR, heq, hfbR]
    by_cases hA : c.activePane = PaneRight <;>
      by_cases hF : c.rightPane.Files = [] <;>
      by_cases hH : rightHighlightEligible c = true <;>
      simp [hA, hF, hH, List.length_pos, rightSel]

/-- A left-pane file that is `left_only` in the snapshot but not
multi-selected. -/
def fXItem : FileItem := ⟨"x", false, 1, 0, "/l/x", false⟩

/-- Compare mode with the right pane active: the left pane's highlighted
entry is `left_only` and nothing is multi-selected. -/
def activeRightCompare : Commander :=
  { baseCommander with
      compareMode := true
      activePane := 1
      leftPane := ⟨"/l", [fXItem], 0⟩
      compareResults := [("x", ⟨"left_only", some fXItem, none⟩)] }

/-- Claim C9 (refuted): with no entries multi-selected and the left
pane's highlighted entry classified `left_only`, `syncLeftToRight` is
claimed to target that entry; but the highlighted-entry fallback of the
code additionally requires the left pane to be the *active* pane
(line 3670), so with the right pane active nothing is targeted. -/
theorem syncTargets_counter :
    (∀ f ∈ activeRightCompare.leftPane.Files, f.Selected = false) ∧
    (mapLookup activeRightCompare.compareResults
        (leftSel activeRightCompare).Name).map (fun st => st.Status) =
      some "left_only" ∧
    (leftSel activeRightCompare).Name ≠ ".." ∧
    syncLeftToRightTargets activeRightCompare = [] ∧
    syncLeftToRightTargets activeRightCompare ≠
      [leftSel activeRightCompare] := by
  refine ⟨?_, ?_, ?_, ?_, ?_⟩ <;> decide

/-- Witness for (amended) C9: in the same state the characterization
applies — the selected-and-eligible filter is empty and the fallback
condition fails on the active pane, so no copy operation is issued. -/
theorem syncTargets_spec_witness :
    activeRightCompare.leftPane.Files.filter
      (leftSyncEligible activeRightCompare) = [] ∧
    syncLeftToRightOps activeRightCompare =
      (if activeRightCompare.activePane = PaneLeft ∧
          activeRightCompare.leftPane.Files ≠ [] ∧
          leftHighlightEligible activeRightCompare = true then
        [((leftSel activeRightCompare).Path,
          joinPath activeRightCompare.rightPane.CurrentPath
            (leftSel activeRightCompare).Name)]
      else []) :=
  ⟨by decide,
   (syncTargets_spec activeRightCompare).2.1 (by decide)⟩

end TC
